import Mathlib

/-!
# Verification of the GCP credential resolution engine

A shallow embedding of the credential parsing/validation utilities of the
`ppc-dashboard` repository (the `resolveGCPCredentials` module) together with
proofs of the specification claims.

Modelling conventions:
* JavaScript strings are modelled as `List Char`.
* `process.env` is modelled as an ordered association list (the order models
  the iteration order of `Object.entries`); a missing variable is an absent
  key.
* `JSON.parse` / `JSON.stringify` are modelled by an executable JSON parser
  and serializer over a JSON value type whose numbers are integers
  (fractional and exponent number literals are outside the model).
* `Buffer.from(_, 'base64').toString('utf8')` is modelled by an executable
  base64-to-bytes decoder composed with a UTF-8 bytes-to-text decoder.
* Operations that can throw in JavaScript (`JSON.parse`,
  `decodeURIComponent`) are modelled as `Option`-returning functions; the
  source wraps every such call in `try`/`catch`, and the embedding handles
  every `none` the way the corresponding `catch` does, so every modelled
  function is total.
-/

set_option maxRecDepth 4000

namespace Creds

/-- JavaScript strings are modelled as lists of characters. -/
abbrev Str := List Char

/-- Characters treated as whitespace by JavaScript's `String.prototype.trim`
and by the regular-expression class `\s`, restricted to the ASCII range plus
NBSP (the exotic Unicode space characters are not modelled; no claim
involves them). -/
def isJsWs (c : Char) : Bool :=
  c = ' ' || c = '\t' || c = '\n' || c = '\r' || c = '\x0b' || c = '\x0c' || c = '\xa0'

/-- `String.prototype.trim`. -/
def trimStr (s : Str) : Str :=
  ((s.dropWhile isJsWs).reverse.dropWhile isJsWs).reverse

/-- `String.prototype.includes` (substring test). -/
def containsSub (s pat : Str) : Bool :=
  match s with
  | [] => pat.isEmpty
  | _ :: rest => pat.isPrefixOf s || containsSub rest pat

/-- Decimal digit character for a value `< 10`. -/
def digitChar (n : Nat) : Char := Char.ofNat (48 + n)

/-- Decimal representation of a natural number (JavaScript `String(n)`). -/
def natToChars (n : Nat) : Str :=
  if n < 10 then [digitChar n]
  else natToChars (n / 10) ++ [digitChar (n % 10)]
decreasing_by exact Nat.div_lt_self (by omega) (by omega)

/-- Decimal representation of an integer (JavaScript `String(i)`,
`JSON.stringify` on an integral number). -/
def intToChars : Int → Str
  | .ofNat n => natToChars n
  | .negSucc m => '-' :: natToChars (m + 1)

/-- Value of a string of decimal digits (JavaScript `parseInt(s, 10)` on an
all-digit string; the base-10 accumulation). -/
def digitsToNat (s : Str) : Nat :=
  s.foldl (fun a c => 10 * a + (c.toNat - 48)) 0

/-- Value of a hexadecimal digit character, if it is one. -/
def hexVal? (c : Char) : Option Nat :=
  if '0' ≤ c ∧ c ≤ '9' then some (c.toNat - 48)
  else if 'a' ≤ c ∧ c ≤ 'f' then some (c.toNat - 87)
  else if 'A' ≤ c ∧ c ≤ 'F' then some (c.toNat - 55)
  else none

/-- Lower-case hexadecimal digit character for a value `< 16`. -/
def hexDigitChar (n : Nat) : Char :=
  if n < 10 then Char.ofNat (48 + n) else Char.ofNat (87 + n)

/-! ## The JSON value model -/

/-- JSON values, as produced by `JSON.parse`.  Numbers are modelled as
integers: fractional and exponent literals are outside the model.  Objects
are ordered lists of key/value pairs (the parser preserves textual order,
as `JSON.parse` preserves insertion order of keys). -/
inductive Json : Type
  | null : Json
  | bool : Bool → Json
  | num : Int → Json
  | str : Str → Json
  | arr : List Json → Json
  | obj : List (Str × Json) → Json

/-- The escape sequence `JSON.stringify` emits for one character inside a
string literal: `"` and `\` and the named control characters get two-byte
escapes, other control characters get `\u00xx`, everything else is emitted
literally. -/
def escapeChar (c : Char) : Str :=
  if c = '"' then ['\\', '"']
  else if c = '\\' then ['\\', '\\']
  else if c = '\x08' then ['\\', 'b']
  else if c = '\x0c' then ['\\', 'f']
  else if c = '\n' then ['\\', 'n']
  else if c = '\r' then ['\\', 'r']
  else if c = '\t' then ['\\', 't']
  else if c.toNat < 32 then
    ['\\', 'u', '0', '0', hexDigitChar (c.toNat / 16), hexDigitChar (c.toNat % 16)]
  else [c]

/-- `JSON.stringify` of a string value. -/
def serializeStr (s : Str) : Str :=
  '"' :: s.flatMap escapeChar ++ ['"']

mutual

/-- `JSON.stringify` (no indentation, insertion order preserved). -/
def stringify : Json → Str
  | .null => ("null").toList
  | .bool true => ("true").toList
  | .bool false => ("false").toList
  | .num i => intToChars i
  | .str s => serializeStr s
  | .arr [] => ['[', ']']
  | .arr (x :: xs) => '[' :: (stringify x ++ serializeElemsRest xs) ++ [']']
  | .obj [] => ['\x7b', '\x7d']
  | .obj (f :: fs) => '\x7b' :: (serializeField f ++ serializeFieldsRest fs) ++ ['\x7d']

/-- Comma-separated serialization of the remaining array elements. -/
def serializeElemsRest : List Json → Str
  | [] => []
  | x :: xs => ',' :: stringify x ++ serializeElemsRest xs

/-- Serialization of one object member (`"key":value`). -/
def serializeField : Str × Json → Str
  | (k, v) => serializeStr k ++ ':' :: stringify v

/-- Comma-separated serialization of the remaining object members. -/
def serializeFieldsRest : List (Str × Json) → Str
  | [] => []
  | f :: fs => ',' :: serializeField f ++ serializeFieldsRest fs

end

mutual

/-- Fuel measure for the JSON parser: the number of nodes of a value. -/
def jsize : Json → Nat
  | .null => 1
  | .bool _ => 1
  | .num _ => 1
  | .str _ => 1
  | .arr xs => 1 + jsizeList xs
  | .obj fs => 1 + jsizeFields fs

/-- Sum of sizes of array elements, plus one per element. -/
def jsizeList : List Json → Nat
  | [] => 0
  | x :: xs => 1 + jsize x + jsizeList xs

/-- Sum of sizes of object member values, plus one per member. -/
def jsizeFields : List (Str × Json) → Nat
  | [] => 0
  | f :: fs => 1 + jsize f.2 + jsizeFields fs

end

/-- The four whitespace characters JSON itself allows between tokens. -/
def isJsonWs (c : Char) : Bool :=
  c = ' ' || c = '\t' || c = '\n' || c = '\r'

/-- Skip JSON inter-token whitespace. -/
def skipWs (s : Str) : Str := s.dropWhile isJsonWs

/-- The character produced by a short escape sequence in a JSON string
literal, if the escape is legal. -/
def escCharOf (c : Char) : Option Char :=
  if c = '"' then some '"'
  else if c = '\\' then some '\\'
  else if c = '/' then some '/'
  else if c = 'b' then some '\x08'
  else if c = 'f' then some '\x0c'
  else if c = 'n' then some '\n'
  else if c = 'r' then some '\r'
  else if c = 't' then some '\t'
  else none

/-- Read four hexadecimal digits (the `XXXX` of a `\uXXXX` escape). -/
def hex4? (s : Str) : Option (Nat × Str) :=
  match s with
  | h1 :: h2 :: h3 :: h4 :: rest =>
    match hexVal? h1, hexVal? h2, hexVal? h3, hexVal? h4 with
    | some a, some b, some c, some d => some (((a * 16 + b) * 16 + c) * 16 + d, rest)
    | _, _, _, _ => none
  | _ => none

/-- Parse the body of a JSON string literal (the opening quote already
consumed), returning the decoded characters and the input after the closing
quote.  Raw control characters are rejected, `\uXXXX` escapes are decoded
with surrogate-pair combination; a lone surrogate escape is rejected (in
JavaScript it would produce an unpaired surrogate code unit, which the
scalar-value character model cannot represent — no claim involves one).
The fuel argument only bounds recursion depth (one unit per decoded
character); callers pass the input length, which is always enough. -/
def parseStringBody (fuel : Nat) (s : Str) : Option (Str × Str) :=
  match fuel with
  | 0 => none
  | fuel + 1 =>
    match s with
    | [] => none
    | c :: rest =>
      if c = '"' then some ([], rest)
      else if c = '\\' then
        match rest with
        | [] => none
        | e :: rest1 =>
          if e = 'u' then
            match hex4? rest1 with
            | some (n, rest2) =>
              if n < 0xd800 ∨ 0xdfff < n then
                match parseStringBody fuel rest2 with
                | some (cs, r) => some (Char.ofNat n :: cs, r)
                | none => none
              else if n < 0xdc00 then
                match rest2 with
                | '\\' :: 'u' :: rest3 =>
                  match hex4? rest3 with
                  | some (m, rest4) =>
                    if 0xdc00 ≤ m ∧ m ≤ 0xdfff then
                      match parseStringBody fuel rest4 with
                      | some (cs, r) =>
                        some (Char.ofNat (0x10000 + (n - 0xd800) * 0x400 + (m - 0xdc00)) :: cs, r)
                      | none => none
                    else none
                  | none => none
                | _ => none
              else none
            | none => none
          else
            match escCharOf e with
            | some ec =>
              match parseStringBody fuel rest1 with
              | some (cs, r) => some (ec :: cs, r)
              | none => none
            | none => none
      else if c.toNat < 32 then none
      else
        match parseStringBody fuel rest with
        | some (cs, r) => some (c :: cs, r)
        | none => none

/-- Parse a run of decimal digits as a JSON natural-number literal,
rejecting an empty run and a leading zero (as the JSON grammar does). -/
def parseNatNum (s : Str) : Option (Nat × Str) :=
  if (s.takeWhile Char.isDigit).isEmpty then none
  else if (s.takeWhile Char.isDigit).head? = some '0' ∧ (s.takeWhile Char.isDigit).length > 1 then
    none
  else some (digitsToNat (s.takeWhile Char.isDigit), s.dropWhile Char.isDigit)

/-- Parse a JSON number literal (integers only; see `Json`). -/
def parseNumber (s : Str) : Option (Json × Str) :=
  if s.head? = some '-' then
    match parseNatNum s.tail with
    | some (n, r) => some (.num (-(n : Int)), r)
    | none => none
  else
    match parseNatNum s with
    | some (n, r) => some (.num (n : Int), r)
    | none => none

mutual

/-- Recursive-descent JSON value parser (the model of `JSON.parse`), with a
fuel argument bounding the nesting depth; `jsonParse` supplies enough fuel
for any input. -/
def parseValue : Nat → Str → Option (Json × Str)
  | 0, _ => none
  | fuel + 1, s =>
    match skipWs s with
    | [] => none
    | c :: rest =>
      if c = '\x7b' then
        if (skipWs rest).head? = some '\x7d' then some (.obj [], (skipWs rest).tail)
        else
          match parseMembers fuel (skipWs rest) with
          | some (ms, r2) => some (.obj ms, r2)
          | none => none
      else if c = '[' then
        if (skipWs rest).head? = some ']' then some (.arr [], (skipWs rest).tail)
        else
          match parseElems fuel (skipWs rest) with
          | some (vs, r2) => some (.arr vs, r2)
          | none => none
      else if c = '"' then
        match parseStringBody (rest.length + 1) rest with
        | some (cs, r2) => some (.str cs, r2)
        | none => none
      else if c = 't' then
        if ("rue").toList.isPrefixOf rest then some (.bool true, rest.drop 3) else none
      else if c = 'f' then
        if ("alse").toList.isPrefixOf rest then some (.bool false, rest.drop 4) else none
      else if c = 'n' then
        if ("ull").toList.isPrefixOf rest then some (.null, rest.drop 3) else none
      else parseNumber (c :: rest)

/-- Parse a non-empty comma-separated list of array elements followed by the
closing bracket. -/
def parseElems : Nat → Str → Option (List Json × Str)
  | 0, _ => none
  | fuel + 1, s =>
    match parseValue fuel s with
    | some (v, r1) =>
      if (skipWs r1).head? = some ',' then
        match parseElems fuel (skipWs r1).tail with
        | some (vs, r3) => some (v :: vs, r3)
        | none => none
      else if (skipWs r1).head? = some ']' then some ([v], (skipWs r1).tail)
      else none
    | none => none

/-- Parse a non-empty comma-separated list of object members followed by the
closing brace. -/
def parseMembers : Nat → Str → Option (List (Str × Json) × Str)
  | 0, _ => none
  | fuel + 1, s =>
    if s.head? = some '"' then
      match parseStringBody (s.tail.length + 1) s.tail with
      | some (key, r1) =>
        if (skipWs r1).head? = some ':' then
          match parseValue fuel (skipWs r1).tail with
          | some (v, r3) =>
            if (skipWs r3).head? = some ',' then
              match parseMembers fuel (skipWs ((skipWs r3).tail)) with
              | some (ms, r5) => some ((key, v) :: ms, r5)
              | none => none
            else if (skipWs r3).head? = some '\x7d' then some ([(key, v)], (skipWs r3).tail)
            else none
          | none => none
        else none
      | none => none
    else none

end

/-- The model of `JSON.parse`: parse one value, then require only
whitespace to remain.  `none` models a thrown `SyntaxError`. -/
def jsonParse (s : Str) : Option Json :=
  match parseValue (s.length + 1) s with
  | some (v, rest) => if skipWs rest = [] then some v else none
  | none => none

/-! ## Round-trip facts about decimal literals -/

theorem digitChar_isDigit : ∀ n, n < 10 → (digitChar n).isDigit = true := by decide

theorem digitChar_toNat : ∀ n, n < 10 → (digitChar n).toNat = 48 + n := by decide

theorem digitChar_eq_zero_iff : ∀ n, n < 10 → (digitChar n = '0' ↔ n = 0) := by decide

theorem natToChars_ne_nil (n : Nat) : natToChars n ≠ [] := by
  rw [natToChars]
  split <;> simp

theorem natToChars_all_digit (n : Nat) : ∀ c ∈ natToChars n, c.isDigit = true := by
  induction n using Nat.strong_induction_on with
  | _ n ih =>
    rw [natToChars]
    split
    · simpa using digitChar_isDigit n (by omega)
    · intro c hc
      rcases List.mem_append.mp hc with h | h
      · exact ih (n / 10) (Nat.div_lt_self (by omega) (by omega)) c h
      · simp at h
        subst h
        exact digitChar_isDigit _ (Nat.mod_lt _ (by omega))

theorem natToChars_head_zero : ∀ n : Nat, (natToChars n).head? = some '0' → n = 0 := by
  intro n
  induction n using Nat.strong_induction_on with
  | _ n ih =>
    intro h
    rw [natToChars] at h
    split at h
    · simp at h
      have := (digitChar_eq_zero_iff n (by omega)).mp h
      omega
    · rename_i hn
      obtain ⟨d, ds, hds⟩ := List.exists_cons_of_ne_nil (natToChars_ne_nil (n / 10))
      rw [hds] at h
      simp at h
      have : n / 10 = 0 := by
        apply ih (n / 10) (Nat.div_lt_self (by omega) (by omega))
        rw [hds, List.head?_cons, h]
      omega

theorem foldl_digits (n : Nat) : ∀ a : Nat,
    List.foldl (fun a c => 10 * a + (c.toNat - 48)) a (natToChars n)
      = a * 10 ^ (natToChars n).length + n := by
  induction n using Nat.strong_induction_on with
  | _ n ih =>
    intro a
    rw [natToChars]
    split
    · rename_i hn
      simp only [List.foldl_cons, List.foldl_nil, List.length_cons, List.length_nil,
        digitChar_toNat n hn, pow_succ, pow_zero]
      omega
    · rename_i hn
      rw [List.foldl_append, ih (n / 10) (Nat.div_lt_self (by omega) (by omega)) a]
      simp only [List.foldl_cons, List.foldl_nil, List.length_append, List.length_cons,
        List.length_nil, digitChar_toNat (n % 10) (Nat.mod_lt _ (by omega)), pow_succ, pow_zero]
      rw [← mul_assoc]
      have hdm := Nat.div_add_mod n 10
      generalize a * 10 ^ (natToChars (n / 10)).length = Y
      omega

theorem digitsToNat_natToChars (n : Nat) : digitsToNat (natToChars n) = n := by
  unfold digitsToNat
  simpa using foldl_digits n 0

/-- Lists `a` consisting of `p`-characters followed by a list not starting
with one split cleanly under `takeWhile`/`dropWhile`. -/
theorem takeWhile_append_all {p : Char → Bool} {a b : Str}
    (ha : ∀ c ∈ a, p c = true) (hb : ∀ c, b.head? = some c → p c = false) :
    (a ++ b).takeWhile p = a ∧ (a ++ b).dropWhile p = b := by
  induction a with
  | nil =>
    simp only [List.nil_append]
    cases b with
    | nil => simp
    | cons c cs =>
      have := hb c rfl
      constructor
      · simp [List.takeWhile, this]
      · simp [List.dropWhile, this]
  | cons x xs iha =>
    have hx : p x = true := ha x (by simp)
    have := iha (fun c hc => ha c (by simp [hc]))
    simp [List.takeWhile, List.dropWhile, hx, this.1, this.2]

/-- Heads that may legally follow a serialized JSON value inside a larger
serialized document: nothing, or a separator. -/
def sepOk (rest : Str) : Prop :=
  match rest.head? with
  | none => True
  | some c => c = ',' ∨ c = ']' ∨ c = '\x7d'

theorem sepOk_not_digit {rest : Str} (h : sepOk rest) :
    ∀ c, rest.head? = some c → c.isDigit = false := by
  intro c hc
  unfold sepOk at h
  rw [hc] at h
  rcases h with h | h | h <;> subst h <;> decide

theorem parseNatNum_natToChars (n : Nat) (rest : Str)
    (hrest : ∀ c, rest.head? = some c → c.isDigit = false) :
    parseNatNum (natToChars n ++ rest) = some (n, rest) := by
  have hsplit := takeWhile_append_all (p := Char.isDigit) (natToChars_all_digit n) hrest
  unfold parseNatNum
  rw [hsplit.1, hsplit.2]
  rw [if_neg (by simp [natToChars_ne_nil n])]
  rw [if_neg ?noLead, digitsToNat_natToChars]
  case noLead =>
    rintro ⟨h0, hlen⟩
    have hn0 : n = 0 := natToChars_head_zero n h0
    rw [hn0, natToChars] at hlen
    simp at hlen

theorem intToChars_ofNat (n : Nat) : intToChars (Int.ofNat n) = natToChars n := rfl

theorem intToChars_negSucc (m : Nat) : intToChars (Int.negSucc m) = '-' :: natToChars (m + 1) :=
  rfl

theorem parseNumber_round (i : Int) (rest : Str) (h : sepOk rest) :
    parseNumber (intToChars i ++ rest) = some (.num i, rest) := by
  have hrest := sepOk_not_digit h
  cases i with
  | ofNat n =>
    rw [intToChars_ofNat]
    unfold parseNumber
    obtain ⟨d, ds, hds⟩ := List.exists_cons_of_ne_nil (natToChars_ne_nil n)
    have hdig : d.isDigit = true := natToChars_all_digit n d (by rw [hds]; simp)
    have hdne : d ≠ '-' := by
      intro hd
      rw [hd] at hdig
      simp at hdig
    rw [hds, List.cons_append, List.head?_cons, if_neg (by simpa using hdne),
      ← List.cons_append, ← hds, parseNatNum_natToChars n rest hrest]
    simp
  | negSucc m =>
    rw [intToChars_negSucc]
    unfold parseNumber
    rw [List.cons_append, List.head?_cons, if_pos rfl, List.tail_cons,
      parseNatNum_natToChars (m + 1) rest hrest]
    simp [Int.negSucc_eq]

/-! ## Round trip through string-literal escaping -/

theorem hexVal?_hexDigitChar : ∀ m, m < 16 → hexVal? (hexDigitChar m) = some m := by decide

theorem psb_quote (fuel : Nat) (rest : Str) :
    parseStringBody (fuel + 1) ('"' :: rest) = some ([], rest) := by
  simp [parseStringBody]

theorem psb_lit (fuel : Nat) (c : Char) (rest : Str) (cs : Str) (r : Str)
    (h1 : c ≠ '"') (h2 : c ≠ '\\') (h3 : ¬c.toNat < 32)
    (h : parseStringBody fuel rest = some (cs, r)) :
    parseStringBody (fuel + 1) (c :: rest) = some (c :: cs, r) := by
  simp [parseStringBody, h1, h2, h3, h]

theorem psb_esc (fuel : Nat) (e : Char) (ec : Char) (rest : Str) (cs : Str) (r : Str)
    (hne : e ≠ 'u') (he : escCharOf e = some ec)
    (h : parseStringBody fuel rest = some (cs, r)) :
    parseStringBody (fuel + 1) ('\\' :: e :: rest) = some (ec :: cs, r) := by
  simp [parseStringBody, hne, he, h]

theorem hex4?_u (t : Nat) (ht : t < 32) (rest : Str) :
    hex4? ('0' :: '0' :: hexDigitChar (t / 16) :: hexDigitChar (t % 16) :: rest)
      = some (t, rest) := by
  have h1 : hexVal? '0' = some 0 := by decide
  have h2 := hexVal?_hexDigitChar (t / 16) (by omega)
  have h3 := hexVal?_hexDigitChar (t % 16) (by omega)
  simp [hex4?, h1, h2, h3]
  omega

theorem psb_u (fuel : Nat) (t : Nat) (rest : Str) (cs : Str) (r : Str)
    (ht : t < 32)
    (h : parseStringBody fuel rest = some (cs, r)) :
    parseStringBody (fuel + 1)
        ('\\' :: 'u' :: '0' :: '0' :: hexDigitChar (t / 16) :: hexDigitChar (t % 16) :: rest)
      = some (Char.ofNat t :: cs, r) := by
  have hh := hex4?_u t ht rest
  have hlt : t < 55296 ∨ 57343 < t := Or.inl (by omega)
  simp [parseStringBody, hh, hlt, h]

theorem parseStringBody_escape (s : Str) : ∀ (fuel : Nat) (rest : Str), s.length < fuel →
    parseStringBody fuel (s.flatMap escapeChar ++ '"' :: rest) = some (s, rest) := by
  induction s with
  | nil =>
    intro fuel rest hfuel
    obtain ⟨f, rfl⟩ : ∃ f, fuel = f + 1 := ⟨fuel - 1, by omega⟩
    simpa using psb_quote f rest
  | cons c cs ih =>
    intro fuel rest hfuel
    obtain ⟨f, rfl⟩ : ∃ f, fuel = f + 1 := ⟨fuel - 1, by omega⟩
    have hrec := ih f rest (by simpa using hfuel)
    rw [List.flatMap_cons, List.append_assoc]
    set tail := cs.flatMap escapeChar ++ '"' :: rest with htail
    unfold escapeChar
    split_ifs with hq hb hbs hf hn hr ht hctl
    · subst hq
      exact psb_esc f '"' '"' tail cs rest (by decide) (by decide) hrec
    · subst hb
      exact psb_esc f '\\' '\\' tail cs rest (by decide) (by decide) hrec
    · rw [show c = '\x08' from hbs]
      exact psb_esc f 'b' '\x08' tail cs rest (by decide) (by decide) hrec
    · rw [show c = '\x0c' from hf]
      exact psb_esc f 'f' '\x0c' tail cs rest (by decide) (by decide) hrec
    · rw [show c = '\n' from hn]
      exact psb_esc f 'n' '\n' tail cs rest (by decide) (by decide) hrec
    · rw [show c = '\r' from hr]
      exact psb_esc f 'r' '\r' tail cs rest (by decide) (by decide) hrec
    · rw [show c = '\t' from ht]
      exact psb_esc f 't' '\t' tail cs rest (by decide) (by decide) hrec
    · have := psb_u f c.toNat tail cs rest hctl hrec
      rw [Char.ofNat_toNat] at this
      simpa using this
    · exact psb_lit f c tail cs rest hq hb hctl hrec

/-! ## Round trip of the whole parser -/

theorem jsize_pos (v : Json) : 1 ≤ jsize v := by
  cases v <;> simp [jsize]

theorem escapeChar_length_pos (c : Char) : 1 ≤ (escapeChar c).length := by
  unfold escapeChar
  split_ifs <;> simp

theorem length_le_flatMap_escape (s : Str) : s.length ≤ (s.flatMap escapeChar).length := by
  induction s with
  | nil => simp
  | cons c cs ih =>
    rw [List.flatMap_cons, List.length_append, List.length_cons]
    have := escapeChar_length_pos c
    omega

theorem skipWs_cons (c : Char) (t : Str) (h : isJsonWs c = false) :
    skipWs (c :: t) = c :: t := by
  simp [skipWs, h]

theorem isPrefixOf_self_append (p r : Str) : p.isPrefixOf (p ++ r) = true := by
  rw [List.isPrefixOf_iff_prefix]
  exact List.prefix_append p r

theorem isDigit_facts {c : Char} (h : c.isDigit = true) :
    c ≠ '\x7b' ∧ c ≠ '[' ∧ c ≠ '"' ∧ c ≠ 't' ∧ c ≠ 'f' ∧ c ≠ 'n' ∧ c ≠ ']' ∧ c ≠ '\x7d' ∧
      isJsonWs c = false := by
  simp [Char.isDigit] at h
  obtain ⟨h1, h2⟩ := h
  refine ⟨?_, ?_, ?_, ?_, ?_, ?_, ?_, ?_, ?_⟩
  · rintro rfl; revert h1 h2; decide
  · rintro rfl; revert h1 h2; decide
  · rintro rfl; revert h1 h2; decide
  · rintro rfl; revert h1 h2; decide
  · rintro rfl; revert h1 h2; decide
  · rintro rfl; revert h1 h2; decide
  · rintro rfl; revert h1 h2; decide
  · rintro rfl; revert h1 h2; decide
  · have hws : c ≠ ' ' ∧ c ≠ '\t' ∧ c ≠ '\n' ∧ c ≠ '\r' := by
      refine ⟨?_, ?_, ?_, ?_⟩ <;> (rintro rfl; revert h1 h2; decide)
    simp [isJsonWs, hws.1, hws.2.1, hws.2.2.1, hws.2.2.2]

/-- Every serialized JSON value starts with a character that is not
whitespace and not a closing delimiter. -/
theorem stringify_head (v : Json) :
    ∃ c t, stringify v = c :: t ∧ isJsonWs c = false ∧ c ≠ ']' ∧ c ≠ '\x7d' := by
  cases v with
  | null =>
    exact ⟨'n', ['u', 'l', 'l'], by simp [stringify], by decide, by decide, by decide⟩
  | bool b =>
    cases b with
    | true =>
      exact ⟨'t', ['r', 'u', 'e'], by simp [stringify], by decide, by decide, by decide⟩
    | false =>
      exact ⟨'f', ['a', 'l', 's', 'e'], by simp [stringify], by decide, by decide, by decide⟩
  | num i =>
    cases i with
    | ofNat n =>
      obtain ⟨d, ds, hds⟩ := List.exists_cons_of_ne_nil (natToChars_ne_nil n)
      have hdig : d.isDigit = true := natToChars_all_digit n d (by rw [hds]; simp)
      have hf := isDigit_facts hdig
      refine ⟨d, ds, ?_, hf.2.2.2.2.2.2.2.2, hf.2.2.2.2.2.2.1, hf.2.2.2.2.2.2.2.1⟩
      show stringify (.num (Int.ofNat n)) = d :: ds
      rw [show stringify (.num (Int.ofNat n)) = intToChars (Int.ofNat n) from by simp [stringify],
        intToChars_ofNat, hds]
    | negSucc m =>
      exact ⟨'-', natToChars (m + 1),
        by rw [show stringify (.num (Int.negSucc m)) = intToChars (Int.negSucc m) from by
          simp [stringify], intToChars_negSucc], by decide, by decide, by decide⟩
  | str s =>
    exact ⟨'"', s.flatMap escapeChar ++ ['"'], by simp [stringify, serializeStr],
      by decide, by decide, by decide⟩
  | arr xs =>
    cases xs with
    | nil => exact ⟨'[', [']'], by simp [stringify], by decide, by decide, by decide⟩
    | cons x xs =>
      exact ⟨'[', stringify x ++ (serializeElemsRest xs ++ [']']), by simp [stringify],
        by decide, by decide, by decide⟩
  | obj fs =>
    cases fs with
    | nil => exact ⟨'\x7b', ['\x7d'], by simp [stringify], by decide, by decide, by decide⟩
    | cons f fs =>
      exact ⟨'\x7b', serializeField f ++ (serializeFieldsRest fs ++ ['\x7d']),
        by simp [stringify], by decide, by decide, by decide⟩

theorem serializeField_head (k : Str) (v : Json) :
    ∃ t, serializeField (k, v) = '"' :: t :=
  ⟨k.flatMap escapeChar ++ ('"' :: ':' :: stringify v),
    by simp [serializeField, serializeStr]⟩

theorem stringify_append_facts (x : Json) (r : Str) :
    skipWs (stringify x ++ r) = stringify x ++ r
    ∧ (stringify x ++ r).head? ≠ some ']'
    ∧ (stringify x ++ r).head? ≠ some '\x7d' := by
  obtain ⟨c, t, hct, hcw, hcr, hcb⟩ := stringify_head x
  rw [hct, List.cons_append, skipWs_cons c _ hcw]
  refine ⟨rfl, ?_, ?_⟩ <;> simp [hcr, hcb]

theorem serializeField_append_facts (k : Str) (v : Json) (r : Str) :
    skipWs (serializeField (k, v) ++ r) = serializeField (k, v) ++ r
    ∧ (serializeField (k, v) ++ r).head? ≠ some '\x7d' := by
  obtain ⟨t, ht⟩ := serializeField_head k v
  rw [ht, List.cons_append, skipWs_cons '"' _ (by decide)]
  exact ⟨rfl, by simp⟩

theorem parseValue_str_branch (f : Nat) (t : Str) :
    parseValue (f + 1) ('"' :: t)
      = match parseStringBody (t.length + 1) t with
        | some (cs, r2) => some (Json.str cs, r2)
        | none => none := by
  simp [parseValue, skipWs_cons '"' t (by decide)]

theorem parse_round : ∀ fuel : Nat,
    (∀ v rest, jsize v ≤ fuel → sepOk rest →
        parseValue fuel (stringify v ++ rest) = some (v, rest))
    ∧ (∀ x xs rest, jsizeList (x :: xs) ≤ fuel →
        parseElems fuel (stringify x ++ (serializeElemsRest xs ++ (']' :: rest)))
          = some (x :: xs, rest))
    ∧ (∀ k v fs rest, jsizeFields ((k, v) :: fs) ≤ fuel →
        parseMembers fuel
            (serializeField (k, v) ++ (serializeFieldsRest fs ++ ('\x7d' :: rest)))
          = some ((k, v) :: fs, rest)) := by
  intro fuel
  induction fuel with
  | zero =>
    refine ⟨?_, ?_, ?_⟩
    · intro v rest hsz _
      have := jsize_pos v
      omega
    · intro x xs rest hsz
      simp [jsizeList] at hsz
    · intro k v fs rest hsz
      simp [jsizeFields] at hsz
  | succ f ih =>
    obtain ⟨ihP, ihQ, ihR⟩ := ih
    refine ⟨?_, ?_, ?_⟩
    · -- values
      intro v rest hsz hsep
      cases v with
      | null =>
        rw [show stringify Json.null = 'n' :: 'u' :: 'l' :: 'l' :: [] from by simp [stringify]]
        simp only [List.cons_append, List.nil_append]
        simp [parseValue, skipWs_cons 'n' ('u' :: 'l' :: 'l' :: rest) (by decide),
          List.isPrefixOf]
      | bool b =>
        cases b with
        | true =>
          rw [show stringify (Json.bool true) = 't' :: 'r' :: 'u' :: 'e' :: [] from by
            simp [stringify]]
          simp only [List.cons_append, List.nil_append]
          simp [parseValue, skipWs_cons 't' ('r' :: 'u' :: 'e' :: rest) (by decide),
            List.isPrefixOf]
        | false =>
          rw [show stringify (Json.bool false) = 'f' :: 'a' :: 'l' :: 's' :: 'e' :: [] from by
            simp [stringify]]
          simp only [List.cons_append, List.nil_append]
          simp [parseValue, skipWs_cons 'f' ('a' :: 'l' :: 's' :: 'e' :: rest) (by decide),
            List.isPrefixOf]
      | num i =>
        rw [show stringify (Json.num i) = intToChars i from by simp [stringify]]
        have hres := parseNumber_round i rest hsep
        cases i with
        | ofNat n =>
          rw [intToChars_ofNat]
          obtain ⟨d, ds, hds⟩ := List.exists_cons_of_ne_nil (natToChars_ne_nil n)
          have hdig : d.isDigit = true := natToChars_all_digit n d (by rw [hds]; simp)
          have hf := isDigit_facts hdig
          rw [intToChars_ofNat] at hres
          rw [hds, List.cons_append]
          simp [parseValue, skipWs_cons d (ds ++ rest) hf.2.2.2.2.2.2.2.2,
            hf.1, hf.2.1, hf.2.2.1, hf.2.2.2.1, hf.2.2.2.2.1, hf.2.2.2.2.2.1]
          rw [← List.cons_append, ← hds, hres]
          rfl
        | negSucc m =>
          rw [intToChars_negSucc] at hres ⊢
          rw [List.cons_append]
          simp [parseValue, skipWs_cons '-' (natToChars (m + 1) ++ rest) (by decide)]
          rw [← List.cons_append, hres]
      | str s =>
        have hinput : stringify (Json.str s) ++ rest
            = '"' :: (s.flatMap escapeChar ++ ('"' :: rest)) := by
          rw [show stringify (Json.str s) = '"' :: (s.flatMap escapeChar ++ ['"']) from by
            simp [stringify, serializeStr]]
          simp
        rw [hinput]
        have hlen : s.length < (s.flatMap escapeChar ++ ('"' :: rest)).length + 1 := by
          have := length_le_flatMap_escape s
          simp only [List.length_append, List.length_cons]
          omega
        have hpsb := parseStringBody_escape s
          ((s.flatMap escapeChar ++ ('"' :: rest)).length + 1) rest hlen
        rw [parseValue_str_branch, hpsb]
      | arr xs =>
        cases xs with
        | nil =>
          rw [show stringify (Json.arr []) = '[' :: ']' :: [] from by simp [stringify]]
          simp only [List.cons_append, List.nil_append]
          simp [parseValue, skipWs_cons '[' (']' :: rest) (by decide),
            skipWs_cons ']' rest (by decide)]
        | cons x xs =>
          have hinput : stringify (Json.arr (x :: xs)) ++ rest
              = '[' :: (stringify x ++ (serializeElemsRest xs ++ (']' :: rest))) := by
            simp [stringify]
          rw [hinput]
          have hQ := ihQ x xs rest (by simp [jsize, jsizeList] at hsz ⊢; omega)
          obtain ⟨c, t, hct, hcw, hcr, hcb⟩ := stringify_head x
          have h1 : skipWs (stringify x ++ (serializeElemsRest xs ++ (']' :: rest)))
              = stringify x ++ (serializeElemsRest xs ++ (']' :: rest)) := by
            rw [hct, List.cons_append, skipWs_cons c _ hcw]
          have h2 : (stringify x).head? = some c := by rw [hct]; rfl
          have h3 : stringify x ≠ [] := by rw [hct]; simp
          simp [parseValue,
            skipWs_cons '[' (stringify x ++ (serializeElemsRest xs ++ (']' :: rest))) (by decide),
            h1, h2, h3, hcr, hQ]
      | obj fs =>
        cases fs with
        | nil =>
          rw [show stringify (Json.obj []) = '\x7b' :: '\x7d' :: [] from by simp [stringify]]
          simp only [List.cons_append, List.nil_append]
          simp [parseValue, skipWs_cons '\x7b' ('\x7d' :: rest) (by decide),
            skipWs_cons '\x7d' rest (by decide)]
        | cons kv fs =>
          obtain ⟨k, v⟩ := kv
          have hinput : stringify (Json.obj ((k, v) :: fs)) ++ rest
              = '\x7b' :: (serializeField (k, v) ++ (serializeFieldsRest fs ++ ('\x7d' :: rest))) := by
            simp [stringify]
          rw [hinput]
          have hR := ihR k v fs rest (by simp [jsize, jsizeFields] at hsz ⊢; omega)
          obtain ⟨t, hct⟩ := serializeField_head k v
          have h1 : skipWs (serializeField (k, v) ++ (serializeFieldsRest fs ++ ('\x7d' :: rest)))
              = serializeField (k, v) ++ (serializeFieldsRest fs ++ ('\x7d' :: rest)) := by
            rw [hct, List.cons_append, skipWs_cons '"' _ (by decide)]
          have h2 : (serializeField (k, v)).head? = some '"' := by rw [hct]; rfl
          have h3 : serializeField (k, v) ≠ [] := by rw [hct]; simp
          simp [parseValue,
            skipWs_cons '\x7b'
              (serializeField (k, v) ++ (serializeFieldsRest fs ++ ('\x7d' :: rest))) (by decide),
            h1, h2, h3, hR]
    · -- array elements
      intro x xs rest hsz
      have hsepT : sepOk (serializeElemsRest xs ++ (']' :: rest)) := by
        cases xs <;> simp [sepOk, serializeElemsRest]
      have hP := ihP x (serializeElemsRest xs ++ (']' :: rest))
        (by simp [jsizeList] at hsz; omega) hsepT
      simp only [parseElems]
      rw [hP]
      cases xs with
      | nil =>
        simp [serializeElemsRest, skipWs_cons ']' rest (by decide)]
      | cons y ys =>
        have hQ' := ihQ y ys rest (by
          simp [jsizeList] at hsz ⊢
          have := jsize_pos x
          omega)
        simp [serializeElemsRest,
          skipWs_cons ',' (stringify y ++ (serializeElemsRest ys ++ (']' :: rest))) (by decide),
          hQ']
    · -- object members
      intro k v fs rest hsz
      have hform : serializeField (k, v) ++ (serializeFieldsRest fs ++ ('\x7d' :: rest))
          = '"' :: (k.flatMap escapeChar
              ++ ('"' :: (':' :: (stringify v ++ (serializeFieldsRest fs ++ ('\x7d' :: rest)))))) := by
        simp [serializeField, serializeStr]
      have hlen : k.length < (k.flatMap escapeChar
          ++ ('"' :: (':' :: (stringify v ++ (serializeFieldsRest fs ++ ('\x7d' :: rest)))))).length + 1 := by
        have := length_le_flatMap_escape k
        simp only [List.length_append, List.length_cons]
        omega
      have hpsb := parseStringBody_escape k _
        ((':' :: (stringify v ++ (serializeFieldsRest fs ++ ('\x7d' :: rest))))) hlen
      have hsepT : sepOk (serializeFieldsRest fs ++ ('\x7d' :: rest)) := by
        cases fs <;> simp [sepOk, serializeFieldsRest]
      have hPv := ihP v (serializeFieldsRest fs ++ ('\x7d' :: rest))
        (by simp [jsizeFields] at hsz; omega) hsepT
      rw [hform]
      simp only [parseMembers]
      simp only [List.head?_cons, List.tail_cons, if_pos rfl]
      rw [hpsb]
      simp only [skipWs_cons ':' _ (by decide), List.head?_cons, List.tail_cons, if_pos rfl]
      rw [hPv]
      cases fs with
      | nil =>
        simp [serializeFieldsRest, skipWs_cons '\x7d' rest (by decide)]
      | cons kv2 fs' =>
        obtain ⟨k2, v2⟩ := kv2
        have hR' := ihR k2 v2 fs' rest (by
          simp [jsizeFields] at hsz ⊢
          have := jsize_pos v
          omega)
        have hfacts := serializeField_append_facts k2 v2
          (serializeFieldsRest fs' ++ ('\x7d' :: rest))
        simp [serializeFieldsRest, List.append_assoc,
          skipWs_cons ','
            (serializeField (k2, v2) ++ (serializeFieldsRest fs' ++ ('\x7d' :: rest))) (by decide),
          hfacts.1, hR']

/-- Each JSON node occupies at least one character of its serialization, so
the parser fuel `length + 1` always suffices. -/
theorem jsize_le_stringify : ∀ v : Json, jsize v ≤ (stringify v).length := by
  have main : ∀ n v, jsize v ≤ n → jsize v ≤ (stringify v).length := by
    intro n
    induction n with
    | zero =>
      intro v h
      have := jsize_pos v
      omega
    | succ n ih =>
      intro v h
      cases v with
      | null => simp [stringify, jsize]
      | bool b => cases b <;> simp [stringify, jsize]
      | num i =>
        have : 1 ≤ (intToChars i).length := by
          cases i with
          | ofNat m =>
            rw [intToChars_ofNat]
            have := natToChars_ne_nil m
            cases hm : natToChars m with
            | nil => exact absurd hm this
            | cons a b => simp [hm]
          | negSucc m => simp [intToChars_negSucc]
        simp only [jsize]
        calc 1 ≤ (intToChars i).length := this
        _ = (stringify (Json.num i)).length := by simp [stringify]
      | str s => simp [stringify, jsize, serializeStr]
      | arr xs =>
        cases xs with
        | nil => simp [stringify, jsize, jsizeList]
        | cons x xs =>
          -- jsize (arr (x::xs)) = 1 + jsizeList (x::xs); length = 2 + |str x| + |rest|
          have hx : jsize x ≤ (stringify x).length := by
            apply ih
            simp [jsize, jsizeList] at h
            have := jsize_pos x
            omega
          have hxs : jsize (Json.arr xs) ≤ (stringify (Json.arr xs)).length := by
            apply ih
            simp [jsize, jsizeList] at h ⊢
            have := jsize_pos x
            omega
          cases xs with
          | nil =>
            simp [stringify, jsize, jsizeList, serializeElemsRest] at *
            omega
          | cons y ys =>
            simp [stringify, jsize, jsizeList, serializeElemsRest] at *
            omega
      | obj fs =>
        cases fs with
        | nil => simp [stringify, jsize, jsizeFields]
        | cons kv fs =>
          obtain ⟨k, v⟩ := kv
          have hv : jsize v ≤ (stringify v).length := by
            apply ih
            simp [jsize, jsizeFields] at h
            have := jsize_pos v
            omega
          have hfs : jsize (Json.obj fs) ≤ (stringify (Json.obj fs)).length := by
            apply ih
            simp [jsize, jsizeFields] at h ⊢
            have := jsize_pos v
            omega
          cases fs with
          | nil =>
            simp [stringify, jsize, jsizeFields, serializeFieldsRest, serializeField,
              serializeStr] at *
            omega
          | cons kv2 fs' =>
            simp [stringify, jsize, jsizeFields, serializeFieldsRest, serializeField,
              serializeStr] at *
            omega
  intro v
  exact main (jsize v) v le_rfl

/-- The parse / stringify round trip: `JSON.parse` applied to
`JSON.stringify` output recovers the value exactly. -/
theorem jsonParse_stringify (v : Json) : jsonParse (stringify v) = some v := by
  have hP := (parse_round ((stringify v).length + 1)).1 v []
    (by have := jsize_le_stringify v; omega) (by simp [sepOk])
  unfold jsonParse
  rw [List.append_nil] at hP
  rw [hP]
  simp [skipWs]

/-! ## UTF-8 (`Buffer.prototype.toString('utf8')` and the byte view of a JS
string) -/

/-- UTF-8 encoding of one Unicode scalar value. -/
def utf8EncodeChar (c : Char) : List Nat :=
  let n := c.toNat
  if n < 0x80 then [n]
  else if n < 0x800 then [0xc0 + n / 64, 0x80 + n % 64]
  else if n < 0x10000 then [0xe0 + n / 4096, 0x80 + (n / 64) % 64, 0x80 + n % 64]
  else [0xf0 + n / 262144, 0x80 + (n / 4096) % 64, 0x80 + (n / 64) % 64, 0x80 + n % 64]

/-- UTF-8 encoding of a string into bytes. -/
def utf8Encode (s : Str) : List Nat := s.flatMap utf8EncodeChar

/-- The Unicode replacement character, produced for invalid byte
sequences. -/
def repChar : Char := Char.ofNat 0xfffd

/-- A scalar value for a decoded code point, with the replacement character
for values outside the scalar range. -/
def charOrRep (n : Nat) : Char :=
  if n < 0xd800 ∨ (0xdfff < n ∧ n < 0x110000) then Char.ofNat n else repChar

/-- Whether a byte is a UTF-8 continuation byte. -/
def isCont (b : Nat) : Bool := 0x80 ≤ b && b < 0xc0

/-- UTF-8 decoding of a byte list (the model of
`Buffer.prototype.toString('utf8')`): total, with the replacement character
for malformed sequences (overlong encodings are not specially rejected;
no claim depends on a malformed sequence).  The fuel argument only bounds
recursion depth (one unit per decoded character); `utf8DecodeBytes` passes
the byte count, which is always enough. -/
def utf8Decode (fuel : Nat) (l : List Nat) : Str :=
  match fuel with
  | 0 => []
  | fuel + 1 =>
    match l with
    | [] => []
    | b :: rest =>
      if b < 0x80 then Char.ofNat b :: utf8Decode fuel rest
      else if b < 0xc0 then repChar :: utf8Decode fuel rest
      else if b < 0xe0 then
        match rest with
        | b1 :: rest1 =>
          if isCont b1 then charOrRep ((b - 0xc0) * 64 + (b1 - 0x80)) :: utf8Decode fuel rest1
          else repChar :: utf8Decode fuel rest
        | [] => [repChar]
      else if b < 0xf0 then
        match rest with
        | b1 :: b2 :: rest2 =>
          if isCont b1 && isCont b2 then
            charOrRep ((b - 0xe0) * 4096 + (b1 - 0x80) * 64 + (b2 - 0x80))
              :: utf8Decode fuel rest2
          else repChar :: utf8Decode fuel rest
        | _ => [repChar]
      else if b < 0xf8 then
        match rest with
        | b1 :: b2 :: b3 :: rest3 =>
          if isCont b1 && isCont b2 && isCont b3 then
            charOrRep ((b - 0xf0) * 262144 + (b1 - 0x80) * 4096 + (b2 - 0x80) * 64 + (b3 - 0x80))
              :: utf8Decode fuel rest3
          else repChar :: utf8Decode fuel rest
        | _ => [repChar]
      else repChar :: utf8Decode fuel rest

/-- `Buffer.prototype.toString('utf8')`. -/
def utf8DecodeBytes (l : List Nat) : Str := utf8Decode (l.length + 1) l

theorem char_toNat_valid (c : Char) :
    c.toNat < 0xd800 ∨ (0xdfff < c.toNat ∧ c.toNat < 0x110000) := by
  have h := c.valid
  rcases h with h | h
  · left
    exact h
  · right
    exact h

theorem charOrRep_toNat (c : Char) : charOrRep c.toNat = c := by
  unfold charOrRep
  rw [if_pos (char_toNat_valid c), Char.ofNat_toNat]

theorem utf8Decode_nil (fuel : Nat) : utf8Decode fuel [] = [] := by
  cases fuel <;> simp [utf8Decode]

theorem utf8Decode_encodeChar (fuel : Nat) (c : Char) (rest : List Nat) :
    utf8Decode (fuel + 1) (utf8EncodeChar c ++ rest) = c :: utf8Decode fuel rest := by
  have hv := char_toNat_valid c
  simp only [utf8EncodeChar]
  split_ifs with h1 h2 h3
  · simp only [List.cons_append, List.nil_append, utf8Decode]
    rw [if_pos h1, Char.ofNat_toNat]
  · simp only [List.cons_append, List.nil_append, utf8Decode]
    rw [if_neg (by omega), if_neg (by omega), if_pos (by omega)]
    rw [if_pos (by simp [isCont]; omega)]
    have harith : (0xc0 + c.toNat / 64 - 0xc0) * 64 + (0x80 + c.toNat % 64 - 0x80) = c.toNat := by
      omega
    rw [harith, charOrRep_toNat]
  · simp only [List.cons_append, List.nil_append, utf8Decode]
    rw [if_neg (by omega), if_neg (by omega), if_neg (by omega), if_pos (by omega)]
    rw [if_pos (by simp [isCont]; omega)]
    have harith : (0xe0 + c.toNat / 4096 - 0xe0) * 4096 + (0x80 + c.toNat / 64 % 64 - 0x80) * 64
        + (0x80 + c.toNat % 64 - 0x80) = c.toNat := by
      omega
    rw [harith, charOrRep_toNat]
  · simp only [List.cons_append, List.nil_append, utf8Decode]
    have hup : c.toNat < 0x110000 := by omega
    rw [if_neg (by omega), if_neg (by omega), if_neg (by omega), if_neg (by omega),
      if_pos (by omega)]
    rw [if_pos (by simp [isCont]; omega)]
    have harith : (0xf0 + c.toNat / 262144 - 0xf0) * 262144
        + (0x80 + c.toNat / 4096 % 64 - 0x80) * 4096
        + (0x80 + c.toNat / 64 % 64 - 0x80) * 64 + (0x80 + c.toNat % 64 - 0x80) = c.toNat := by
      omega
    rw [harith, charOrRep_toNat]

theorem utf8Decode_encode (s : Str) : ∀ fuel, s.length < fuel →
    utf8Decode fuel (utf8Encode s) = s := by
  induction s with
  | nil =>
    intro fuel _
    simp [utf8Encode, utf8Decode_nil]
  | cons c cs ih =>
    intro fuel hfuel
    obtain ⟨f, rfl⟩ : ∃ f, fuel = f + 1 := ⟨fuel - 1, by omega⟩
    unfold utf8Encode at ih ⊢
    rw [List.flatMap_cons, utf8Decode_encodeChar f c (cs.flatMap utf8EncodeChar),
      ih f (by simpa using hfuel)]

theorem utf8EncodeChar_length_pos (c : Char) : 1 ≤ (utf8EncodeChar c).length := by
  simp only [utf8EncodeChar]
  split_ifs <;> simp

theorem length_le_utf8Encode (s : Str) : s.length ≤ (utf8Encode s).length := by
  induction s with
  | nil => simp [utf8Encode]
  | cons c cs ih =>
    unfold utf8Encode at ih ⊢
    rw [List.flatMap_cons, List.length_append, List.length_cons]
    have := utf8EncodeChar_length_pos c
    omega

theorem utf8EncodeChar_lt_256 (c : Char) : ∀ b ∈ utf8EncodeChar c, b < 256 := by
  have hv := char_toNat_valid c
  simp only [utf8EncodeChar]
  split_ifs with h1 h2 h3 <;> intro b hb <;> simp at hb <;> omega

theorem utf8Encode_lt_256 (s : Str) : ∀ b ∈ utf8Encode s, b < 256 := by
  intro b hb
  unfold utf8Encode at hb
  rw [List.mem_flatMap] at hb
  obtain ⟨c, _, hbc⟩ := hb
  exact utf8EncodeChar_lt_256 c b hbc

/-- The UTF-8 bytes / text round trip used by the base64 path. -/
theorem utf8DecodeBytes_encode (s : Str) : utf8DecodeBytes (utf8Encode s) = s := by
  unfold utf8DecodeBytes
  exact utf8Decode_encode s _ (by have := length_le_utf8Encode s; omega)

/-! ## Base64 (`Buffer.from(_, 'base64')` and the encoding direction) -/

/-- The character class of the restricted-alphabet check
(`/^[A-Za-z0-9+\/]+=*$/` without the padding part). -/
def isBase64Char (c : Char) : Bool :=
  ('A' ≤ c && c ≤ 'Z') || ('a' ≤ c && c ≤ 'z') || ('0' ≤ c && c ≤ '9') || c = '+' || c = '/'

/-- The base64 alphabet in value order. -/
def b64Alphabet : Str :=
  ("ABCDEFGHIJKLMNOPQRSTUVWXYZabcdefghijklmnopqrstuvwxyz0123456789+/").toList

/-- The alphabet character for a sextet value `< 64`. -/
def sextetChar (k : Nat) : Char := b64Alphabet.getD k 'A'

/-- The sextet value of an alphabet character; `none` for everything else
(including `=` padding and whitespace, which Node's lenient base64 decoder
skips). -/
def sextetVal? (c : Char) : Option Nat :=
  if 'A' ≤ c ∧ c ≤ 'Z' then some (c.toNat - 65)
  else if 'a' ≤ c ∧ c ≤ 'z' then some (c.toNat - 71)
  else if '0' ≤ c ∧ c ≤ '9' then some (c.toNat + 4)
  else if c = '+' then some 62
  else if c = '/' then some 63
  else none

/-- Standard base64 encoding of a byte list, with `=` padding. -/
def base64Encode : List Nat → Str
  | [] => []
  | [x] => [sextetChar (x / 4), sextetChar ((x % 4) * 16), '=', '=']
  | [x, y] =>
    [sextetChar (x / 4), sextetChar ((x % 4) * 16 + y / 16), sextetChar ((y % 16) * 4), '=']
  | x :: y :: z :: rest =>
    sextetChar (x / 4) :: sextetChar ((x % 4) * 16 + y / 16) ::
      sextetChar ((y % 16) * 4 + z / 64) :: sextetChar (z % 64) :: base64Encode rest

/-- Regroup a list of sextet values into bytes (8 bits out of each aligned
24-bit group; trailing 6 or 12 bits of an incomplete group are dropped, as
Node does). -/
def regroupSextets : List Nat → List Nat
  | a :: b :: c :: d :: rest =>
    (a * 4 + b / 16) :: ((b % 16) * 16 + c / 4) :: ((c % 4) * 64 + d) :: regroupSextets rest
  | [a, b] => [a * 4 + b / 16]
  | [a, b, c] => [a * 4 + b / 16, (b % 16) * 16 + c / 4]
  | _ => []

/-- The model of `Buffer.from(value, 'base64')`: map alphabet characters to
sextet values, skipping `=` and any character outside the alphabet (Node's
lenient decoder), then regroup bits into bytes.  Never throws. -/
def base64Decode (s : Str) : List Nat := regroupSextets (s.filterMap sextetVal?)

theorem sextetVal?_sextetChar : ∀ k, k < 64 → sextetVal? (sextetChar k) = some k := by decide

theorem sextetVal?_eq : sextetVal? '=' = none := by decide

theorem base64Decode_encode : ∀ l : List Nat, (∀ b ∈ l, b < 256) →
    base64Decode (base64Encode l) = l
  | [], _ => by simp [base64Encode, base64Decode, regroupSextets]
  | [x], h => by
    have hx : x < 256 := h x (by simp)
    unfold base64Decode base64Encode
    rw [List.filterMap_cons, sextetVal?_sextetChar (x / 4) (by omega)]
    rw [List.filterMap_cons, sextetVal?_sextetChar ((x % 4) * 16) (by omega)]
    rw [List.filterMap_cons, sextetVal?_eq, List.filterMap_cons, sextetVal?_eq,
      List.filterMap_nil]
    show regroupSextets [x / 4, x % 4 * 16] = [x]
    unfold regroupSextets
    have : x / 4 * 4 + x % 4 * 16 / 16 = x := by omega
    rw [this]
  | [x, y], h => by
    have hx : x < 256 := h x (by simp)
    have hy : y < 256 := h y (by simp)
    unfold base64Decode base64Encode
    rw [List.filterMap_cons, sextetVal?_sextetChar (x / 4) (by omega)]
    rw [List.filterMap_cons, sextetVal?_sextetChar ((x % 4) * 16 + y / 16) (by omega)]
    rw [List.filterMap_cons, sextetVal?_sextetChar ((y % 16) * 4) (by omega)]
    rw [List.filterMap_cons, sextetVal?_eq, List.filterMap_nil]
    show regroupSextets [x / 4, x % 4 * 16 + y / 16, y % 16 * 4] = [x, y]
    unfold regroupSextets
    have h1 : x / 4 * 4 + (x % 4 * 16 + y / 16) / 16 = x := by omega
    have h2 : (x % 4 * 16 + y / 16) % 16 * 16 + y % 16 * 4 / 4 = y := by omega
    rw [h1, h2]
  | x :: y :: z :: w :: rest, h => by
    have hx : x < 256 := h x (by simp)
    have hy : y < 256 := h y (by simp)
    have hz : z < 256 := h z (by simp)
    have ih := base64Decode_encode (w :: rest) (fun b hb => h b (by simp at hb ⊢; tauto))
    unfold base64Decode base64Encode
    rw [List.filterMap_cons, sextetVal?_sextetChar (x / 4) (by omega)]
    rw [List.filterMap_cons, sextetVal?_sextetChar ((x % 4) * 16 + y / 16) (by omega)]
    rw [List.filterMap_cons, sextetVal?_sextetChar ((y % 16) * 4 + z / 64) (by omega)]
    rw [List.filterMap_cons, sextetVal?_sextetChar (z % 64) (by omega)]
    show regroupSextets
        (x / 4 :: (x % 4 * 16 + y / 16) :: (y % 16 * 4 + z / 64) :: z % 64 ::
          (base64Encode (w :: rest)).filterMap sextetVal?)
      = x :: y :: z :: w :: rest
    rw [regroupSextets]
    unfold base64Decode at ih
    rw [ih]
    have h1 : x / 4 * 4 + (x % 4 * 16 + y / 16) / 16 = x := by omega
    have h2 : (x % 4 * 16 + y / 16) % 16 * 16 + (y % 16 * 4 + z / 64) / 4 = y := by omega
    have h3 : (y % 16 * 4 + z / 64) % 4 * 64 + z % 64 = z := by omega
    rw [h1, h2, h3]
  | [x, y, z], h => by
    have hx : x < 256 := h x (by simp)
    have hy : y < 256 := h y (by simp)
    have hz : z < 256 := h z (by simp)
    unfold base64Decode base64Encode
    rw [List.filterMap_cons, sextetVal?_sextetChar (x / 4) (by omega)]
    rw [List.filterMap_cons, sextetVal?_sextetChar ((x % 4) * 16 + y / 16) (by omega)]
    rw [List.filterMap_cons, sextetVal?_sextetChar ((y % 16) * 4 + z / 64) (by omega)]
    rw [List.filterMap_cons, sextetVal?_sextetChar (z % 64) (by omega)]
    rw [show base64Encode [] = [] from rfl, List.filterMap_nil]
    show regroupSextets [x / 4, x % 4 * 16 + y / 16, y % 16 * 4 + z / 64, z % 64]
      = [x, y, z]
    rw [regroupSextets]
    have h1 : x / 4 * 4 + (x % 4 * 16 + y / 16) / 16 = x := by omega
    have h2 : (x % 4 * 16 + y / 16) % 16 * 16 + (y % 16 * 4 + z / 64) / 4 = y := by omega
    have h3 : (y % 16 * 4 + z / 64) % 4 * 64 + z % 64 = z := by omega
    rw [h1, h2, h3]
    rfl

theorem base64Encode_length : ∀ l : List Nat,
    (base64Encode l).length = 4 * ((l.length + 2) / 3)
  | [] => by simp [base64Encode]
  | [x] => by simp [base64Encode]
  | [x, y] => by simp [base64Encode]
  | x :: y :: z :: rest => by
    have ih := base64Encode_length rest
    simp only [base64Encode, List.length_cons, ih]
    omega

theorem sextetChar_lt_64_facts : ∀ k, k < 64 →
    isBase64Char (sextetChar k) = true ∧ isJsWs (sextetChar k) = false ∧
      sextetChar k ≠ '=' ∧ sextetChar k ≠ '\x7b' ∧ sextetChar k ≠ '[' := by decide

theorem base64Encode_structure : ∀ l : List Nat, (∀ b ∈ l, b < 256) →
    ∃ body pad, base64Encode l = body ++ pad
      ∧ (∀ c ∈ body, isBase64Char c = true)
      ∧ (pad = [] ∨ pad = ['='] ∨ pad = ['=', '='])
      ∧ (l ≠ [] → body ≠ [])
  | [], _ => ⟨[], [], by simp [base64Encode], by simp, by simp, by simp⟩
  | [x], h => by
    have hx : x < 256 := h x (by simp)
    refine ⟨[sextetChar (x / 4), sextetChar ((x % 4) * 16)], ['=', '='],
      by simp [base64Encode], ?_, by simp, by simp⟩
    intro c hc
    simp at hc
    rcases hc with rfl | rfl
    · exact (sextetChar_lt_64_facts (x / 4) (by omega)).1
    · exact (sextetChar_lt_64_facts ((x % 4) * 16) (by omega)).1
  | [x, y], h => by
    have hx : x < 256 := h x (by simp)
    have hy : y < 256 := h y (by simp)
    refine ⟨[sextetChar (x / 4), sextetChar ((x % 4) * 16 + y / 16), sextetChar ((y % 16) * 4)],
      ['='], by simp [base64Encode], ?_, by simp, by simp⟩
    intro c hc
    simp at hc
    rcases hc with rfl | rfl | rfl
    · exact (sextetChar_lt_64_facts (x / 4) (by omega)).1
    · exact (sextetChar_lt_64_facts ((x % 4) * 16 + y / 16) (by omega)).1
    · exact (sextetChar_lt_64_facts ((y % 16) * 4) (by omega)).1
  | x :: y :: z :: rest, h => by
    have hx : x < 256 := h x (by simp)
    have hy : y < 256 := h y (by simp)
    have hz : z < 256 := h z (by simp)
    obtain ⟨body, pad, hsplit, hbody, hpad, _⟩ :=
      base64Encode_structure rest (fun b hb => h b (by simp [hb]))
    refine ⟨sextetChar (x / 4) :: sextetChar ((x % 4) * 16 + y / 16) ::
        sextetChar ((y % 16) * 4 + z / 64) :: sextetChar (z % 64) :: body, pad,
      by simp [base64Encode, hsplit], ?_, hpad, by simp⟩
    intro c hc
    simp at hc
    rcases hc with rfl | rfl | rfl | rfl | hc
    · exact (sextetChar_lt_64_facts (x / 4) (by omega)).1
    · exact (sextetChar_lt_64_facts ((x % 4) * 16 + y / 16) (by omega)).1
    · exact (sextetChar_lt_64_facts ((y % 16) * 4 + z / 64) (by omega)).1
    · exact (sextetChar_lt_64_facts (z % 64) (by omega)).1
    · exact hbody c hc

theorem base64Encode_head (x : Nat) (r : List Nat) :
    ∃ t, base64Encode (x :: r) = sextetChar (x / 4) :: t := by
  match r with
  | [] => exact ⟨[sextetChar ((x % 4) * 16), '=', '='], rfl⟩
  | [y] =>
    exact ⟨[sextetChar ((x % 4) * 16 + y / 16), sextetChar ((y % 16) * 4), '='], rfl⟩
  | y :: z :: rest =>
    exact ⟨sextetChar ((x % 4) * 16 + y / 16) ::
      sextetChar ((y % 16) * 4 + z / 64) :: sextetChar (z % 64) :: base64Encode rest, rfl⟩

theorem isBase64Char_not_ws {c : Char} (h : isBase64Char c = true) : isJsWs c = false := by
  simp [isBase64Char] at h
  have hws : c ≠ ' ' ∧ c ≠ '\t' ∧ c ≠ '\n' ∧ c ≠ '\r' ∧ c ≠ '\x0b' ∧ c ≠ '\x0c' ∧ c ≠ '\xa0' := by
    rcases h with (((⟨h1, h2⟩ | ⟨h1, h2⟩) | ⟨h1, h2⟩) | rfl) | rfl
    · refine ⟨?_, ?_, ?_, ?_, ?_, ?_, ?_⟩ <;> (rintro rfl; revert h1 h2; decide)
    · refine ⟨?_, ?_, ?_, ?_, ?_, ?_, ?_⟩ <;> (rintro rfl; revert h1 h2; decide)
    · refine ⟨?_, ?_, ?_, ?_, ?_, ?_, ?_⟩ <;> (rintro rfl; revert h1 h2; decide)
    · decide
    · decide
  simp [isJsWs, hws.1, hws.2.1, hws.2.2.1, hws.2.2.2.1, hws.2.2.2.2.1, hws.2.2.2.2.2.1,
    hws.2.2.2.2.2.2]

/-! ## Percent decoding (`decodeURIComponent`) -/

/-- The model of `decodeURIComponent`: literal characters pass through,
`%XX` byte sequences are decoded as UTF-8 (continuation bytes must
themselves be percent-escaped), surrogate code points and out-of-range
values are rejected; `none` models a thrown `URIError` (overlong encodings
are not specially rejected; no claim depends on one).  The fuel argument
only bounds recursion depth; `decodeURIComponent` passes the input length,
which is always enough. -/
def percentDecode : Nat → Str → Option Str
  | 0, _ => none
  | _ + 1, [] => some []
  | fuel + 1, c :: rest =>
    if c = '%' then
      match rest with
      | h1 :: h2 :: rest2 =>
        match hexVal? h1, hexVal? h2 with
        | some a, some b =>
          let byte := a * 16 + b
          if byte < 0x80 then
            match percentDecode fuel rest2 with
            | some t => some (Char.ofNat byte :: t)
            | none => none
          else if byte < 0xc0 then none
          else if byte < 0xe0 then
            match rest2 with
            | '%' :: g1 :: g2 :: rest3 =>
              match hexVal? g1, hexVal? g2 with
              | some a1, some b1 =>
                if isCont (a1 * 16 + b1) then
                  match percentDecode fuel rest3 with
                  | some t => some (Char.ofNat ((byte - 0xc0) * 64 + (a1 * 16 + b1 - 0x80)) :: t)
                  | none => none
                else none
              | _, _ => none
            | _ => none
          else if byte < 0xf0 then
            match rest2 with
            | '%' :: g1 :: g2 :: '%' :: g3 :: g4 :: rest3 =>
              match hexVal? g1, hexVal? g2, hexVal? g3, hexVal? g4 with
              | some a1, some b1, some a2, some b2 =>
                if isCont (a1 * 16 + b1) ∧ isCont (a2 * 16 + b2) then
                  let n := (byte - 0xe0) * 4096 + (a1 * 16 + b1 - 0x80) * 64 + (a2 * 16 + b2 - 0x80)
                  if n < 0xd800 ∨ 0xdfff < n then
                    match percentDecode fuel rest3 with
                    | some t => some (Char.ofNat n :: t)
                    | none => none
                  else none
                else none
              | _, _, _, _ => none
            | _ => none
          else if byte < 0xf8 then
            match rest2 with
            | '%' :: g1 :: g2 :: '%' :: g3 :: g4 :: '%' :: g5 :: g6 :: rest3 =>
              match hexVal? g1, hexVal? g2, hexVal? g3, hexVal? g4, hexVal? g5, hexVal? g6 with
              | some a1, some b1, some a2, some b2, some a3, some b3 =>
                if isCont (a1 * 16 + b1) ∧ isCont (a2 * 16 + b2) ∧ isCont (a3 * 16 + b3) then
                  let n := (byte - 0xf0) * 262144 + (a1 * 16 + b1 - 0x80) * 4096
                    + (a2 * 16 + b2 - 0x80) * 64 + (a3 * 16 + b3 - 0x80)
                  if n < 0x110000 then
                    match percentDecode fuel rest3 with
                    | some t => some (Char.ofNat n :: t)
                    | none => none
                  else none
                else none
              | _, _, _, _, _, _ => none
            | _ => none
          else none
        | _, _ => none
      | _ => none
    else
      match percentDecode fuel rest with
      | some t => some (c :: t)
      | none => none

/-- `decodeURIComponent`, with `none` for a thrown `URIError`. -/
def decodeURIComponent (s : Str) : Option Str := percentDecode (s.length + 1) s

/-- A percent-decoded string keeps its leading character when that
character is not `%`. -/
theorem percentDecode_head_lit (fuel : Nat) (c : Char) (t : Str) (d : Str)
    (hc : c ≠ '%') (h : percentDecode (fuel + 1) (c :: t) = some d) :
    ∃ d', d = c :: d' := by
  simp only [percentDecode, hc, if_neg, if_false, ite_false, reduceIte] at h
  rcases hpd : percentDecode fuel t with _ | t' <;> rw [hpd] at h
  · simp at h
  · simp only [Option.some.injEq] at h
    exact ⟨t', h.symm⟩

/-! ## The credential resolution module (`resolveGCPCredentials` and its
helpers), translated from the dashboard's shared credential utilities. -/

/-- Shorthand: a JavaScript string literal as a character list. -/
def lit (s : String) : Str := s.toList

/-- The failure taxonomy of `CredentialParseResult.error.type`. -/
inductive ErrType : Type
  | missing : ErrType
  | invalid_json : ErrType
  | invalid_base64 : ErrType
  | invalid_structure : ErrType
  | missing_fields : ErrType
deriving DecidableEq

/-- The `error` record of a failed `CredentialParseResult`. -/
structure CredError : Type where
  type : ErrType
  message : Str
  details : Str
  troubleshooting : List Str

/-- The result type of credential parsing and resolution.  Fields absent in
the JavaScript object are `none`. -/
structure CredentialParseResult : Type where
  success : Bool
  credentials : Option Json
  projectId : Option Json
  error : Option CredError
  source : Option Str

/-- `process.env`: an ordered association list of set environment
variables (iteration order models `Object.entries`). -/
abbrev Env := List (Str × Str)

/-- `process.env[name]`. -/
def envGet : Env → Str → Option Str
  | [], _ => none
  | (k, v) :: rest, name => if k = name then some v else envGet rest name

def SERVICE_ACCOUNT_JSON_ENV_NAMES : List Str :=
  [lit ("GCP_SERVICE_ACCOUNT_KEY"),
   lit ("GCP_SA_KEY"),
   lit ("GCP_SERVICE_ACCOUNT_JSON"),
   lit ("GCP_SERVICE_ACCOUNT"),
   lit ("GCP_SERVICE_KEY"),
   lit ("GCP_CREDENTIALS"),
   lit ("GOOGLE_CREDENTIALS"),
   lit ("GOOGLE_APPLICATION_CREDENTIALS_JSON"),
   lit ("GOOGLE_APPLICATION_CREDENTIALS_BASE64"),
   lit ("GOOGLE_APPLICATION_CREDENTIALS_B64"),
   lit ("SERVICE_ACCOUNT_JSON"),
   lit ("BIGQUERY_SERVICE_ACCOUNT_KEY"),
   lit ("BIGQUERY_CREDENTIALS"),
   lit ("BQ_SERVICE_ACCOUNT_KEY")]

def SERVICE_ACCOUNT_EMAIL_ENV_NAMES : List Str :=
  [lit ("GCP_SERVICE_ACCOUNT_EMAIL"),
   lit ("GCP_CLIENT_EMAIL"),
   lit ("GOOGLE_CLIENT_EMAIL"),
   lit ("BIGQUERY_CLIENT_EMAIL"),
   lit ("BQ_CLIENT_EMAIL"),
   lit ("SERVICE_ACCOUNT_EMAIL"),
   lit ("GOOGLE_SERVICE_ACCOUNT_EMAIL"),
   lit ("GCP_SERVICE_ACCOUNT_USER")]

def SERVICE_ACCOUNT_KEY_ENV_NAMES : List Str :=
  [lit ("GCP_SERVICE_ACCOUNT_KEY_RAW"),
   lit ("GCP_PRIVATE_KEY"),
   lit ("GOOGLE_PRIVATE_KEY"),
   lit ("BIGQUERY_PRIVATE_KEY"),
   lit ("BQ_PRIVATE_KEY"),
   lit ("SERVICE_ACCOUNT_PRIVATE_KEY"),
   lit ("GOOGLE_SERVICE_ACCOUNT_PRIVATE_KEY"),
   lit ("GCP_SERVICE_ACCOUNT_PRIVATE_KEY")]

def PROJECT_ID_ENV_NAMES : List Str :=
  [lit ("GCP_PROJECT"),
   lit ("GOOGLE_CLOUD_PROJECT"),
   lit ("GOOGLE_PROJECT_ID"),
   lit ("GCP_PROJECT_ID"),
   lit ("BIGQUERY_PROJECT_ID"),
   lit ("BQ_PROJECT_ID"),
   lit ("GOOGLE_PROJECT"),
   lit ("GCLOUD_PROJECT")]

/-- The character class of the separator regex `[\s_-]`. -/
def isSepChar (c : Char) : Bool := isJsWs c || c = '_' || c = '-'

/-- The index extracted from the part of an environment-variable name that
follows a candidate base name: an optional separator run, then either
`PART` (any case) plus an optional separator run plus digits, or bare
digits.  `none` when the name does not match the split-part shape. -/
def splitIndex? (baseName envName : Str) : Option Nat :=
  if baseName.isPrefixOf envName then
    let suffix := envName.drop baseName.length
    if suffix.isEmpty then none
    else
      let trimmed := suffix.dropWhile isSepChar
      if trimmed.isEmpty then none
      else if (lit ("PART")).isPrefixOf (trimmed.map Char.toUpper) then
        let remainder := (trimmed.drop 4).dropWhile isSepChar
        if remainder.isEmpty then none
        else if remainder.all Char.isDigit then some (digitsToNat remainder)
        else none
      else if trimmed.all Char.isDigit then some (digitsToNat trimmed)
      else none
  else none

/-- The `(index, value)` pairs collected by `combineSplitEnv`. -/
def splitParts (env : Env) (baseName : Str) : List (Nat × Str) :=
  env.filterMap fun p =>
    if p.2 ≠ [] then (splitIndex? baseName p.1).map fun i => (i, p.2) else none

/-- Reassemble one logical value split across numbered environment
variables: collect matching entries, sort ascending by index (stably, as
`Array.prototype.sort` is), and concatenate the values with no separator. -/
def combineSplitEnv (env : Env) (baseName : Str) : Option Str :=
  let parts := splitParts env baseName
  if parts.isEmpty then none
  else some (((parts.insertionSort fun a b => a.1 ≤ b.1).map Prod.snd).flatten)

/-- First candidate name whose variable is set to a non-blank value,
with the trimmed value (the direct pass of `getFirstSetEnvWithName`). -/
def findDirect (env : Env) : List Str → Option (Str × Str)
  | [] => none
  | n :: ns =>
    match envGet env n with
    | some v => if trimStr v ≠ [] then some (n, trimStr v) else findDirect env ns
    | none => findDirect env ns

/-- First candidate name with a non-blank split-part reconstruction (the
fallback pass of `getFirstSetEnvWithName`). -/
def findSplit (env : Env) : List Str → Option (Str × Str)
  | [] => none
  | n :: ns =>
    match combineSplitEnv env n with
    | some c =>
      if trimStr c ≠ [] then some (n ++ lit (" (split parts)"), trimStr c)
      else findSplit env ns
    | none => findSplit env ns

/-- Look up an ordered candidate-name list: every direct name first, then
split-part reconstruction for every name. -/
def getFirstSetEnvWithName (env : Env) (names : List Str) : Option (Str × Str) :=
  match findDirect env names with
  | some r => some r
  | none => findSplit env names

def getFirstSetEnv (env : Env) (names : List Str) : Option Str :=
  (getFirstSetEnvWithName env names).map Prod.snd

/-- Replace every two-character `\n` escape by an actual newline
(left-to-right, non-overlapping, as `String.prototype.replace` with a
global regex does). -/
def replaceEscapedNewlines : Str → Str
  | '\\' :: 'n' :: rest => '\n' :: replaceEscapedNewlines rest
  | c :: rest => c :: replaceEscapedNewlines rest
  | [] => []

/-- The number of (non-overlapping, left-to-right) occurrences of the
two-character `\n` escape in a string, matching the occurrences the global
regex replace of `replaceEscapedNewlines` rewrites. -/
def countEscNewlines : Str → Nat
  | '\\' :: 'n' :: rest => countEscNewlines rest + 1
  | _ :: rest => countEscNewlines rest
  | [] => 0

/-- Normalise private-key material: trim, and turn escaped newlines into
actual newlines. -/
def normalisePrivateKey : Option Str → Option Str
  | none => none
  | some value =>
    let trimmed := trimStr value
    if trimmed = [] then none
    else if containsSub trimmed (['\\', 'n']) then some (replaceEscapedNewlines trimmed)
    else some trimmed

/-- Build a credential object from individually supplied environment
variables (the component credential assembler). -/
def buildCredentialsFromEnvironmentParts (env : Env) : Option Json :=
  let clientEmail := getFirstSetEnv env SERVICE_ACCOUNT_EMAIL_ENV_NAMES
  let privateKey := normalisePrivateKey (getFirstSetEnv env SERVICE_ACCOUNT_KEY_ENV_NAMES)
  let projectId := getFirstSetEnv env PROJECT_ID_ENV_NAMES
  match clientEmail, privateKey with
  | some ce, some pk =>
    some (Json.obj
      ((lit ("client_email"), Json.str ce) ::
       (lit ("private_key"), Json.str pk) ::
       (lit ("type"), Json.str (lit ("service_account"))) ::
       (match projectId with
        | some pid => [(lit ("project_id"), Json.str pid)]
        | none => [])))
  | _, _ => none

/-- Smart detection of whether a string might be base64: a confidence score
in `[0, 1]` (the JavaScript number literals are exact here, so `ℚ` models
them faithfully). -/
def detectBase64Likelihood (value : Str) : ℚ :=
  let cleaned := (trimStr value).filter fun c => !isJsWs c
  if cleaned.head? = some '\x7b' ∨ cleaned.head? = some '[' then 0
  else
    let body := cleaned.takeWhile isBase64Char
    let rest := cleaned.dropWhile isBase64Char
    if body.isEmpty ∨ ¬(rest.all fun c => c = '=') then 0
    else if cleaned.length < 100 then mkRat 3 10
    else if ((cleaned.reverse.takeWhile fun c => c = '=').length) > 2 then mkRat 2 10
    else if cleaned.length % 4 = 0 then mkRat 9 10
    else if cleaned.length % 4 ≤ 2 then mkRat 7 10
    else mkRat 5 10

/-- The cleanup pipeline of `parseServiceAccountValue`: trim, strip
embedded newlines when the value does not open a JSON object, then
URL-decode when percent-escaped quote/brace sequences are present (keeping
the original on a decode error). -/
def cleanedValueOf (value : Str) : Str :=
  let c1 := trimStr value
  let c2 :=
    if containsSub c1 ['\n'] = true ∧ c1.head? ≠ some '\x7b' then c1.filter fun c => c ≠ '\n'
    else c1
  if containsSub c2 (lit ("%22")) = true ∨ containsSub c2 (lit ("%7B")) = true
      ∨ containsSub c2 (lit ("%7D")) = true then
    match decodeURIComponent c2 with
    | some d => d
    | none => c2
  else c2

/-- Last-occurrence field lookup on an object's member list (duplicate keys
in a JSON text bind to the last occurrence in JavaScript). -/
def lookupField : List (Str × Json) → Str → Option Json
  | [], _ => none
  | (k, v) :: rest, key =>
    match lookupField rest key with
    | some r => some r
    | none => if k = key then some v else none

/-- JavaScript property access `o.key` on a parsed JSON value. -/
def jsGet : Json → Str → Option Json
  | .obj fs, key => lookupField fs key
  | _, _ => none

/-- JavaScript `key in o`. -/
def hasField : Json → Str → Bool
  | .obj fs, key => fs.any fun f => f.1 = key
  | _, _ => false

/-- JavaScript truthiness of a parsed JSON value. -/
def jsTruthy : Json → Bool
  | .null => false
  | .bool b => b
  | .num n => n ≠ 0
  | .str s => s ≠ []
  | .arr _ => true
  | .obj _ => true

/-- JavaScript `typeof v === 'object'` for a parsed JSON value. -/
def typeofObject : Json → Bool
  | .null => true
  | .arr _ => true
  | .obj _ => true
  | _ => false

/-- The `missing` failure of `parseServiceAccountValue` (unset or blank
variable). -/
def missingValueResult (source : Str) : CredentialParseResult :=
  ⟨false, none, none,
    some ⟨.missing,
      source ++ lit (" is not set or is empty"),
      lit ("The environment variable ") ++ source
        ++ lit (" must be set to your service account credentials."),
      [lit ("Set ") ++ source
         ++ lit (" to the contents of your service account key JSON file (raw JSON)"),
       lit ("Or, set ") ++ source
         ++ lit (" to base64-encoded JSON: run 'cat service-account.json | base64'"),
       lit ("After setting the variable, redeploy the application")]⟩,
    none⟩

/-- The `invalid_json` failure produced when a base64 decode succeeded but
the decoded text does not parse (the embedded JavaScript exception message
is abstracted to a fixed marker; no claim depends on its text). -/
def invalidJsonAfterDecode (source : Str) (decoded : Str) : CredentialParseResult :=
  let additionalGuidance : List Str :=
    if (lit ("data:")).isPrefixOf decoded = true ∨ containsSub decoded (lit ("base64,")) = true then
      [lit ("The decoded content appears to contain a data URL. Use only the service account JSON, not a data URL.")]
    else if containsSub decoded (['\\', 'n']) = true ∧ containsSub decoded ['\n'] = false then
      [lit ("The decoded content contains escaped newlines (\\n). These should be actual newlines in the JSON.")]
    else if trimStr decoded = [] then
      [lit ("The decoded content is empty. The base64 string may be invalid or incomplete.")]
    else []
  ⟨false, none, none,
    some ⟨.invalid_json,
      source ++ lit (" was successfully base64 decoded but does not contain valid JSON"),
      lit ("The base64-decoded content could not be parsed as JSON. JSON error: SyntaxError. Decoded length: ")
        ++ natToChars decoded.length ++ lit (" characters."),
      [lit ("Ensure you are encoding valid JSON content when creating the base64 value"),
       lit ("Example: 'cat service-account.json | base64 | tr -d \"\\n\"' should produce valid base64 encoding"),
       lit ("Verify your service-account.json file is valid JSON before encoding: 'cat service-account.json | jq .'"),
       lit ("Test the encoding/decoding locally: 'echo \"$GCP_SERVICE_ACCOUNT_KEY\" | base64 -d | jq .'")]
      ++ additionalGuidance
      ++ [lit ("After correcting the value, redeploy the application")]⟩,
    none⟩

/-- The terminal failure of `parseServiceAccountValue` when neither raw
JSON nor base64 worked: `invalid_json` for JSON-looking values, otherwise
`invalid_base64`. -/
def finalParseError (source : Str) (cleanedValue : Str) : CredentialParseResult :=
  if cleanedValue.head? = some '\x7b' ∨ cleanedValue.head? = some '[' then
    ⟨false, none, none,
      some ⟨.invalid_json,
        source ++ lit (" is not valid JSON or base64 encoded JSON"),
        source ++ lit (" appears to be JSON but contains syntax errors."),
        [lit ("The value looks like JSON but has syntax errors"),
         lit ("Ensure the entire JSON is copied, including opening \x7b and closing \x7d"),
         lit ("Check for missing commas, quotes, or brackets"),
         lit ("Validate your JSON: 'cat service-account.json | jq .'"),
         lit ("Ensure no characters were corrupted during copy/paste"),
         lit ("After correcting the value, redeploy the application")]⟩,
      none⟩
  else
    ⟨false, none, none,
      some ⟨.invalid_base64,
        source ++ lit (" is not valid JSON or base64 encoded JSON"),
        lit ("Could not parse ") ++ source ++ lit (" as JSON or base64-encoded JSON."),
        [lit ("Option 1 (Raw JSON - Recommended): Set ") ++ source
           ++ lit (" to the entire contents of your service account key file"),
         lit ("Option 2 (Base64): Run 'cat service-account.json | base64 | tr -d \"\\n\"' and set ")
           ++ source ++ lit (" to the output"),
         lit ("Ensure there are no extra spaces, line breaks, or special characters in the environment variable"),
         lit ("Verify the JSON is valid before encoding: 'cat service-account.json | jq .'"),
         lit ("After correcting the value, redeploy the application")]⟩,
      none⟩

/-- Parse service account credentials from a string value with smart format
detection: raw JSON first, then (when the likelihood gate passes) base64
decoding. -/
def parseServiceAccountValue (value : Option Str) (source : Str) : CredentialParseResult :=
  match value with
  | none => missingValueResult source
  | some v =>
    if trimStr v = [] then missingValueResult source
    else
      let cleanedValue := cleanedValueOf v
      match jsonParse cleanedValue with
      | some parsed =>
        ⟨true, some parsed, jsGet parsed (lit ("project_id")), none,
          some (source ++ lit (" (raw JSON)"))⟩
      | none =>
        if detectBase64Likelihood cleanedValue > mkRat 3 10 then
          let decoded := utf8DecodeBytes (base64Decode cleanedValue)
          match jsonParse decoded with
          | some parsed =>
            ⟨true, some parsed, jsGet parsed (lit ("project_id")), none,
              some (source ++ lit (" (base64-encoded JSON)"))⟩
          | none => invalidJsonAfterDecode source decoded
        else finalParseError source cleanedValue

/-- The five mandatory service-account fields. -/
def requiredFields : List Str :=
  [lit ("type"), lit ("project_id"), lit ("private_key_id"), lit ("private_key"),
   lit ("client_email")]

/-- Rendering of `credentials.type || 'missing'` inside the
structure-validation message (non-string values are abbreviated; no claim
depends on this text). -/
def showTypeField (credentials : Json) : Str :=
  match jsGet credentials (lit ("type")) with
  | some (Json.str s) => if s = [] then lit ("missing") else s
  | some j => if jsTruthy j then lit ("(non-string)") else lit ("missing")
  | none => lit ("missing")

/-- JavaScript `credentials.type === 'service_account'`: strict equality
with a string literal holds exactly when the property is that string. -/
def isServiceAccountType (credentials : Json) : Bool :=
  match jsGet credentials (lit ("type")) with
  | some (Json.str s) => s = lit ("service_account")
  | _ => false

theorem isServiceAccountType_iff (credentials : Json) :
    isServiceAccountType credentials = true
      ↔ jsGet credentials (lit ("type")) = some (Json.str (lit ("service_account"))) := by
  unfold isServiceAccountType
  rcases h : jsGet credentials (lit ("type")) with _ | j
  · simp
  · cases j <;> simp

/-- Validate service account credential structure. -/
def validateServiceAccountStructure (credentials : Json) (source : Str) :
    CredentialParseResult :=
  if ¬(jsTruthy credentials = true ∧ typeofObject credentials = true) then
    ⟨false, none, none,
      some ⟨.invalid_structure,
        source ++ lit (" does not contain a valid object"),
        lit ("The parsed JSON is not an object structure"),
        [lit ("Ensure you are using the service account key JSON file from Google Cloud Console"),
         lit ("The file should be a JSON object with fields like type, project_id, private_key, etc."),
         lit ("Download a fresh service account key from Google Cloud Console if needed")]⟩,
      none⟩
  else if isServiceAccountType credentials = false then
    ⟨false, none, none,
      some ⟨.invalid_structure,
        source ++ lit (" does not contain a service account credential"),
        lit ("Expected \"type\": \"service_account\" but got \"type\": \"")
          ++ showTypeField credentials ++ lit ("\""),
        [lit ("Ensure you are using a service account key JSON (not other credential types)"),
         lit ("Download the key from: Google Cloud Console > IAM & Admin > Service Accounts > Keys"),
         lit ("Create a new key if needed (JSON format)")]⟩,
      none⟩
  else
    let missingFields := requiredFields.filter fun field => ¬(hasField credentials field = true)
    if missingFields ≠ [] then
      ⟨false, none, none,
        some ⟨.missing_fields,
          source ++ lit (" is missing required service account fields"),
          lit ("Missing fields: ") ++ List.intercalate (lit (", ")) missingFields,
          [lit ("Ensure you are using the complete service account key JSON file"),
           lit ("The file should contain: type, project_id, private_key_id, private_key, client_email"),
           lit ("Download a fresh service account key from Google Cloud Console if the file is incomplete")]⟩,
        none⟩
    else
      ⟨true, some credentials, jsGet credentials (lit ("project_id")), none, some source⟩

/-- The terminal `missing` failure of the resolver. -/
def noCredentialsResult : CredentialParseResult :=
  ⟨false, none, none,
    some ⟨.missing,
      lit ("No Google Cloud service account credentials configured"),
      lit ("No supported credential environment variables found"),
      [lit ("Option 1: Set GCP_SERVICE_ACCOUNT_KEY with your service account JSON (raw or base64 encoded)"),
       lit ("Option 2: Set GOOGLE_CREDENTIALS or GOOGLE_APPLICATION_CREDENTIALS with your service account JSON"),
       lit ("Option 3: Set individual variables: GCP_CLIENT_EMAIL + GCP_PRIVATE_KEY (with \\n for newlines)"),
       lit ("After setting credentials, redeploy the application"),
       lit ("Verify configuration at: /api/config-check")]⟩,
    none⟩

/-- The tail of the resolver: build from individual variables, else report
that nothing is configured. -/
def resolveFromParts (env : Env) : CredentialParseResult :=
  match buildCredentialsFromEnvironmentParts env with
  | some creds =>
    validateServiceAccountStructure creds
      (lit ("credential parts (GCP_CLIENT_EMAIL + GCP_PRIVATE_KEY)"))
  | none => noCredentialsResult

/-- Resolve GCP service account credentials from environment variables:
blob-style variables first, then `GOOGLE_APPLICATION_CREDENTIALS` (whose
parse failures fall through), then the component assembler, then the
`missing` failure. -/
def resolveGCPCredentials (env : Env) : CredentialParseResult :=
  match getFirstSetEnvWithName env SERVICE_ACCOUNT_JSON_ENV_NAMES with
  | some (name, value) =>
    let parseResult := parseServiceAccountValue (some value) name
    match parseResult.credentials with
    | some creds =>
      if parseResult.success = true ∧ jsTruthy creds = true then
        validateServiceAccountStructure creds (parseResult.source.getD [])
      else parseResult
    | none => parseResult
  | none =>
    match getFirstSetEnvWithName env [lit ("GOOGLE_APPLICATION_CREDENTIALS")] with
    | some (name, value) =>
      let parseResult := parseServiceAccountValue (some value) name
      match parseResult.credentials with
      | some creds =>
        if parseResult.success = true ∧ jsTruthy creds = true then
          validateServiceAccountStructure creds (parseResult.source.getD [])
        else resolveFromParts env
      | none => resolveFromParts env
    | none => resolveFromParts env

/-! ## Facts about trimming and lookups -/

theorem dropWhile_head_not (p : Char → Bool) (l : Str) :
    ∀ c, (l.dropWhile p).head? = some c → p c = false := by
  induction l with
  | nil => simp
  | cons x xs ih =>
    intro c hc
    by_cases hx : p x
    · rw [List.dropWhile_cons, if_pos hx] at hc
      exact ih c hc
    · rw [List.dropWhile_cons, if_neg hx] at hc
      simp at hc
      rw [← hc]
      simpa using hx

theorem dropWhile_eq_self_of (p : Char → Bool) (l : Str)
    (h : ∀ c, l.head? = some c → p c = false) : l.dropWhile p = l := by
  cases l with
  | nil => simp
  | cons x xs => simp [List.dropWhile_cons, h x rfl]

theorem trimStr_eq_self (s : Str) (h : ∀ c ∈ s, isJsWs c = false) : trimStr s = s := by
  unfold trimStr
  rw [dropWhile_eq_self_of isJsWs s fun c hc => h c (by cases s with
    | nil => simp at hc
    | cons a t => simp at hc; simp [hc])]
  rw [dropWhile_eq_self_of isJsWs s.reverse fun c hc => h c (by
    have := List.mem_of_mem_head? hc
    simpa using this)]
  simp

theorem trimStr_idem (s : Str) : trimStr (trimStr s) = trimStr s := by
  unfold trimStr
  set A := s.dropWhile isJsWs with hA
  set C := A.reverse.dropWhile isJsWs with hC
  -- `trimStr s = C.reverse`; its head is non-ws because `C` is a suffix of
  -- `A.reverse` whose last element is the head of `A`, and its last element
  -- is `C`'s head, which `dropWhile` guarantees to be non-ws.
  have hCsuffix : C <:+ A.reverse := List.dropWhile_suffix isJsWs
  have hdw1 : C.reverse.dropWhile isJsWs = C.reverse := by
    apply dropWhile_eq_self_of
    intro c hc
    rw [List.head?_reverse] at hc
    obtain ⟨t, ht⟩ := hCsuffix
    have hCne : C ≠ [] := by
      intro hCe
      rw [hCe] at hc
      simp at hc
    have hlast : A.reverse.getLast? = some c := by
      rw [← ht, List.getLast?_append_of_ne_nil t hCne, hc]
    rw [List.getLast?_reverse] at hlast
    rw [hA] at hlast
    exact dropWhile_head_not isJsWs s c hlast
  rw [hdw1, List.reverse_reverse]
  have hdw2 : C.dropWhile isJsWs = C := by
    apply dropWhile_eq_self_of
    intro c hc
    exact dropWhile_head_not isJsWs A.reverse c (hC ▸ hc)
  rw [hdw2]

theorem trimStr_ne_nil_nonempty {s : Str} (h : trimStr s ≠ []) : s ≠ [] := by
  intro hs
  rw [hs] at h
  simp [trimStr] at h

theorem findDirect_some (env : Env) : ∀ names n v,
    findDirect env names = some (n, v) → v = trimStr v ∧ v ≠ [] := by
  intro names
  induction names with
  | nil => simp [findDirect]
  | cons m ms ih =>
    intro n v h
    rw [findDirect] at h
    split at h
    · split_ifs at h with hw
      · simp at h
        refine ⟨?_, ?_⟩
        · rw [← h.2, trimStr_idem]
        · rw [← h.2]; exact hw
      · exact ih n v h
    · exact ih n v h

theorem findSplit_some (env : Env) : ∀ names n v,
    findSplit env names = some (n, v) → v = trimStr v ∧ v ≠ [] := by
  intro names
  induction names with
  | nil => simp [findSplit]
  | cons m ms ih =>
    intro n v h
    rw [findSplit] at h
    split at h
    · split_ifs at h with hw
      · simp at h
        refine ⟨?_, ?_⟩
        · rw [← h.2, trimStr_idem]
        · rw [← h.2]; exact hw
      · exact ih n v h
    · exact ih n v h

theorem getFirstSetEnvWithName_some {env : Env} {names : List Str} {n v : Str}
    (h : getFirstSetEnvWithName env names = some (n, v)) : v = trimStr v ∧ v ≠ [] := by
  unfold getFirstSetEnvWithName at h
  rcases hd : findDirect env names with _ | r
  · rw [hd] at h
    exact findSplit_some env names n v h
  · rw [hd] at h
    simp at h
    rw [h] at hd
    exact findDirect_some env names n v hd

/-! ## Invariants of parse, validation and resolution results -/

/-- The shape of `parseServiceAccountValue (some v)` for a non-blank
value, as a case equation usable for rewriting. -/
theorem parseServiceAccountValue_eq (v : Str) (source : Str) (ht : ¬trimStr v = []) :
    parseServiceAccountValue (some v) source =
      match jsonParse (cleanedValueOf v) with
      | some parsed =>
        ⟨true, some parsed, jsGet parsed (lit ("project_id")), none,
          some (source ++ lit (" (raw JSON)"))⟩
      | none =>
        if detectBase64Likelihood (cleanedValueOf v) > mkRat 3 10 then
          match jsonParse (utf8DecodeBytes (base64Decode (cleanedValueOf v))) with
          | some parsed =>
            ⟨true, some parsed, jsGet parsed (lit ("project_id")), none,
              some (source ++ lit (" (base64-encoded JSON)"))⟩
          | none => invalidJsonAfterDecode source (utf8DecodeBytes (base64Decode (cleanedValueOf v)))
        else finalParseError source (cleanedValueOf v) := by
  simp only [parseServiceAccountValue, ht, if_false, reduceIte]

/-- Every result of `parseServiceAccountValue` is either a success carrying
credentials, or a failure carrying an error with non-empty remediation. -/
theorem parseServiceAccountValue_inv (value : Option Str) (source : Str) :
    ((parseServiceAccountValue value source).success = true
      ∧ ((parseServiceAccountValue value source).credentials).isSome
      ∧ (parseServiceAccountValue value source).error = none)
    ∨ ((parseServiceAccountValue value source).success = false
      ∧ ∃ e, (parseServiceAccountValue value source).error = some e
          ∧ e.troubleshooting ≠ []) := by
  rcases value with _ | v
  · right
    rw [show parseServiceAccountValue none source = missingValueResult source from rfl]
    simp [missingValueResult]
  · by_cases ht : trimStr v = []
    · right
      rw [show parseServiceAccountValue (some v) source = missingValueResult source from by
        simp [parseServiceAccountValue, ht]]
      simp [missingValueResult]
    · rw [parseServiceAccountValue_eq v source ht]
      rcases hj : jsonParse (cleanedValueOf v) with _ | parsed
      · by_cases hb : detectBase64Likelihood (cleanedValueOf v) > mkRat 3 10
        · rw [if_pos hb]
          rcases hj2 : jsonParse (utf8DecodeBytes (base64Decode (cleanedValueOf v))) with _ | p2
          · right
            unfold invalidJsonAfterDecode
            split_ifs <;> simp
          · left
            simp
        · rw [if_neg hb]
          right
          unfold finalParseError
          split_ifs <;> simp
      · left
        simp

/-- Every result of `validateServiceAccountStructure` is either a success
carrying the credentials, or a failure carrying an error with non-empty
remediation; no failure kind is `missing`. -/
theorem validateServiceAccountStructure_inv (credentials : Json) (source : Str) :
    ((validateServiceAccountStructure credentials source).success = true
      ∧ ((validateServiceAccountStructure credentials source).credentials).isSome
      ∧ (validateServiceAccountStructure credentials source).error = none)
    ∨ ((validateServiceAccountStructure credentials source).success = false
      ∧ ∃ e, (validateServiceAccountStructure credentials source).error = some e
          ∧ e.troubleshooting ≠ [] ∧ e.type ≠ ErrType.missing) := by
  simp only [validateServiceAccountStructure]
  split_ifs <;> simp

/-- A parse result for a non-blank value never has failure kind
`missing`. -/
theorem parseServiceAccountValue_not_missing (v : Str) (source : Str)
    (ht : ¬trimStr v = []) :
    ∀ e, (parseServiceAccountValue (some v) source).error = some e →
      e.type ≠ ErrType.missing := by
  intro e he
  rw [parseServiceAccountValue_eq v source ht] at he
  rcases hj : jsonParse (cleanedValueOf v) with _ | parsed
  · rw [hj] at he
    by_cases hb : detectBase64Likelihood (cleanedValueOf v) > mkRat 3 10
    · rw [if_pos hb] at he
      rcases hj2 : jsonParse (utf8DecodeBytes (base64Decode (cleanedValueOf v))) with _ | p2
      · rw [hj2] at he
        unfold invalidJsonAfterDecode at he
        split_ifs at he <;> simp at he <;> simp [← he]
      · rw [hj2] at he
        simp at he
    · rw [if_neg hb] at he
      unfold finalParseError at he
      split_ifs at he <;> simp at he <;> simp [← he]
  · rw [hj] at he
    simp at he

/-- Invariant of `resolveFromParts`: success carries credentials, failure
carries a non-empty remediation list. -/
theorem resolveFromParts_inv (env : Env) :
    ((resolveFromParts env).success = true ∧ ((resolveFromParts env).credentials).isSome
        ∧ (resolveFromParts env).error = none)
    ∨ ((resolveFromParts env).success = false
        ∧ ∃ e, (resolveFromParts env).error = some e ∧ e.troubleshooting ≠ []) := by
  unfold resolveFromParts
  rcases hb : buildCredentialsFromEnvironmentParts env with _ | creds
  · right
    simp [noCredentialsResult]
  · rcases validateServiceAccountStructure_inv creds
      (lit ("credential parts (GCP_CLIENT_EMAIL + GCP_PRIVATE_KEY)")) with h | h
    · exact Or.inl h
    · obtain ⟨e, he1, he2, _⟩ := h.2
      exact Or.inr ⟨h.1, e, he1, he2⟩

/-- Invariant of `resolveGCPCredentials`: success carries credentials and
no error; failure carries an error with non-empty remediation. -/
theorem resolveGCPCredentials_inv (env : Env) :
    ((resolveGCPCredentials env).success = true
      ∧ ((resolveGCPCredentials env).credentials).isSome
      ∧ (resolveGCPCredentials env).error = none)
    ∨ ((resolveGCPCredentials env).success = false
      ∧ ∃ e, (resolveGCPCredentials env).error = some e ∧ e.troubleshooting ≠ []) := by
  rcases h1 : getFirstSetEnvWithName env SERVICE_ACCOUNT_JSON_ENV_NAMES with _ | ⟨name, value⟩
  · rcases h2 : getFirstSetEnvWithName env [lit ("GOOGLE_APPLICATION_CREDENTIALS")]
      with _ | ⟨n2, v2⟩
    · simp only [resolveGCPCredentials, h1, h2]
      exact resolveFromParts_inv env
    · rcases hc : (parseServiceAccountValue (some v2) n2).credentials with _ | creds
      · simp only [resolveGCPCredentials, h1, h2, hc]
        exact resolveFromParts_inv env
      · simp only [resolveGCPCredentials, h1, h2, hc]
        by_cases hcond : (parseServiceAccountValue (some v2) n2).success = true
            ∧ jsTruthy creds = true
        · rw [if_pos hcond]
          rcases validateServiceAccountStructure_inv creds
              ((parseServiceAccountValue (some v2) n2).source.getD []) with h | h
          · exact Or.inl h
          · obtain ⟨e, he1, he2, _⟩ := h.2
            exact Or.inr ⟨h.1, e, he1, he2⟩
        · rw [if_neg hcond]
          exact resolveFromParts_inv env
  · rcases hc : (parseServiceAccountValue (some value) name).credentials with _ | creds
    · simp only [resolveGCPCredentials, h1, hc]
      rcases parseServiceAccountValue_inv (some value) name with h | h
      · exact absurd (h.2.1) (by rw [hc]; simp)
      · exact Or.inr h
    · simp only [resolveGCPCredentials, h1, hc]
      by_cases hcond : (parseServiceAccountValue (some value) name).success = true
          ∧ jsTruthy creds = true
      · rw [if_pos hcond]
        rcases validateServiceAccountStructure_inv creds
            ((parseServiceAccountValue (some value) name).source.getD []) with h | h
        · exact Or.inl h
        · obtain ⟨e, he1, he2, _⟩ := h.2
          exact Or.inr ⟨h.1, e, he1, he2⟩
      · rw [if_neg hcond]
        rcases parseServiceAccountValue_inv (some value) name with h | h
        · exact Or.inl h
        · exact Or.inr h

/-! ## The specification claims -/

/-- C9: for every environment state, `resolveGCPCredentials` returns a
`CredentialParseResult` value (the embedding is a total function: every
operation that can throw in JavaScript is modelled as `Option` and every
`none` is handled where the source catches); moreover failures are
returned as data — a result is a success exactly when it carries no error
record, and a success always carries credentials. -/
theorem resolveGCPCredentials_total_data (env : Env) :
    ((resolveGCPCredentials env).success = true ↔ (resolveGCPCredentials env).error = none)
    ∧ ((resolveGCPCredentials env).success = false ↔
        (resolveGCPCredentials env).error.isSome)
    ∧ ((resolveGCPCredentials env).success = true →
        ((resolveGCPCredentials env).credentials).isSome) := by
  rcases resolveGCPCredentials_inv env with h | h
  · refine ⟨⟨fun _ => h.2.2, fun _ => h.1⟩, ⟨?_, ?_⟩, fun _ => h.2.1⟩
    · intro hf
      rw [h.1] at hf
      simp at hf
    · intro hs
      rw [h.2.2] at hs
      simp at hs
  · obtain ⟨e, he, _⟩ := h.2
    refine ⟨⟨?_, ?_⟩, ⟨fun _ => by simp [he], fun _ => h.1⟩, ?_⟩
    · intro hs
      rw [h.1] at hs
      simp at hs
    · intro hn
      rw [he] at hn
      simp at hn
    · intro hs
      rw [h.1] at hs
      simp at hs

/-- C9 witness. -/
theorem resolveGCPCredentials_total_data_witness :
    ((resolveGCPCredentials []).success = false ↔ (resolveGCPCredentials []).error.isSome)
      ∧ (resolveGCPCredentials []).error.isSome :=
  ⟨(resolveGCPCredentials_total_data []).2.1, by decide⟩

/-- C10: whenever `resolveGCPCredentials` returns a failed result, the
result carries an error record with a non-empty troubleshooting list, for
every failure kind the resolver can produce. -/
theorem resolveGCPCredentials_troubleshooting_nonempty (env : Env)
    (h : (resolveGCPCredentials env).success = false) :
    ∃ e, (resolveGCPCredentials env).error = some e ∧ e.troubleshooting ≠ [] := by
  rcases resolveGCPCredentials_inv env with hinv | hinv
  · rw [hinv.1] at h
    simp at h
  · exact hinv.2

/-- C10 witness. -/
theorem resolveGCPCredentials_troubleshooting_nonempty_witness :
    (resolveGCPCredentials []).success = false
      ∧ ∃ e, (resolveGCPCredentials []).error = some e ∧ e.troubleshooting ≠ [] :=
  ⟨by decide, resolveGCPCredentials_troubleshooting_nonempty [] (by decide)⟩

/-- C1: the claim says that with no blob variable set but a client-email
and a private-key component variable set to non-blank values, the resolver
returns Success via the component assembler.  The code disagrees: the
assembler never sets `private_key_id` (and `project_id` is also mandatory),
so the validator always rejects the assembled credential and the resolver
returns a `missing_fields` failure on exactly the environment the claim
(and the repository README's "Method 3: Component Credentials") describes. -/
theorem componentAssembler_never_validates :
    (resolveGCPCredentials
        [(lit ("GCP_CLIENT_EMAIL"), lit ("admin@example.com")),
         (lit ("GCP_PRIVATE_KEY"), lit ("abc"))]).success = false
    ∧ (resolveGCPCredentials
        [(lit ("GCP_CLIENT_EMAIL"), lit ("admin@example.com")),
         (lit ("GCP_PRIVATE_KEY"), lit ("abc"))]).error.map CredError.type
        = some ErrType.missing_fields
    ∧ (buildCredentialsFromEnvironmentParts
        [(lit ("GCP_CLIENT_EMAIL"), lit ("admin@example.com")),
         (lit ("GCP_PRIVATE_KEY"), lit ("abc"))]).map
          (fun c => hasField c (lit ("private_key_id"))) = some false := by
  refine ⟨by decide, by decide, by decide⟩

theorem dropWhile_append_singleton (p : Char → Bool) (c : Char) (hc : p c = false) :
    ∀ L : Str, ∃ u, (L ++ [c]).dropWhile p = u ++ [c] := by
  intro L
  induction L with
  | nil => exact ⟨[], by simp [List.dropWhile_cons, hc]⟩
  | cons x L' ih =>
    by_cases hx : p x
    · obtain ⟨u, hu⟩ := ih
      exact ⟨u, by simp [List.dropWhile_cons, hx, hu]⟩
    · exact ⟨x :: L', by simp [List.dropWhile_cons, hx]⟩

theorem trimStr_cons_head (c : Char) (t : Str) (hc : isJsWs c = false) :
    ∃ t', trimStr (c :: t) = c :: t' := by
  unfold trimStr
  rw [List.dropWhile_cons, if_neg (by simp [hc])]
  rw [List.reverse_cons]
  obtain ⟨u, hu⟩ := dropWhile_append_singleton isJsWs c hc t.reverse
  rw [hu, List.reverse_append]
  exact ⟨u.reverse, rfl⟩

/-- The base64-likelihood classifier scores any value whose (trimmed)
text opens a JSON object at exactly zero. -/
theorem detectBase64Likelihood_brace (X : Str) (h : X.head? = some '\x7b') :
    detectBase64Likelihood X = 0 := by
  rcases X with _ | ⟨c, t⟩
  · simp at h
  · simp at h
    subst h
    obtain ⟨t', ht'⟩ := trimStr_cons_head '\x7b' t (by decide)
    unfold detectBase64Likelihood
    rw [ht']
    have hb : (fun c => !isJsWs c) '\x7b' = true := by decide
    rw [if_pos (Or.inl (by rw [List.filter_cons, if_pos hb]; simp))]

/-- The cleanup pipeline preserves a leading `{`. -/
theorem cleanedValueOf_head_brace (value : Str)
    (h : (trimStr value).head? = some '\x7b') :
    (cleanedValueOf value).head? = some '\x7b' := by
  rcases hc1 : trimStr value with _ | ⟨c, t⟩
  · rw [hc1] at h
    simp at h
  · rw [hc1] at h
    simp at h
    subst h
    unfold cleanedValueOf
    rw [hc1]
    dsimp only
    have hcond1 : ¬(containsSub ('\x7b' :: t) ['\n'] = true
        ∧ ('\x7b' :: t).head? ≠ some '\x7b') := by
      simp
    rw [if_neg hcond1]
    split_ifs with hurl
    · rcases hd : decodeURIComponent ('\x7b' :: t) with _ | d
      · simp
      · unfold decodeURIComponent at hd
        rw [List.length_cons] at hd
        obtain ⟨d', hd'⟩ := percentDecode_head_lit (t.length + 1) '\x7b' t d (by decide) hd
        simp [hd']
    · simp

/-- C3: for every blob value whose trimmed text starts with `{` but fails
to parse as JSON, the base64 decode path is never attempted — the
likelihood score of the cleaned value is exactly 0 — and any resulting
failure has kind `invalid_json`, never `invalid_base64`. -/
theorem braceValue_never_base64 (value source : Str)
    (h : (trimStr value).head? = some '\x7b') :
    detectBase64Likelihood (cleanedValueOf value) = 0
    ∧ ((parseServiceAccountValue (some value) source).success = false →
        (parseServiceAccountValue (some value) source).error.map CredError.type
          = some ErrType.invalid_json) := by
  have hne : ¬trimStr value = [] := by
    intro h0
    rw [h0] at h
    simp at h
  have hhead := cleanedValueOf_head_brace value h
  have hdet := detectBase64Likelihood_brace (cleanedValueOf value) hhead
  refine ⟨hdet, ?_⟩
  intro hfail
  rw [parseServiceAccountValue_eq value source hne] at hfail ⊢
  rcases hj : jsonParse (cleanedValueOf value) with _ | parsed
  · rw [hj] at hfail
    rw [if_neg (by rw [hdet]; decide)] at hfail ⊢
    unfold finalParseError at hfail ⊢
    rw [if_pos (Or.inl hhead)] at hfail ⊢
    simp
  · rw [hj] at hfail
    simp at hfail

/-- C3 witness. -/
theorem braceValue_never_base64_witness :
    (trimStr (lit ("\x7b bad"))).head? = some '\x7b'
    ∧ detectBase64Likelihood (cleanedValueOf (lit ("\x7b bad"))) = 0
    ∧ (parseServiceAccountValue (some (lit ("\x7b bad")))
        (lit ("GCP_SERVICE_ACCOUNT_KEY"))).success = false
    ∧ (parseServiceAccountValue (some (lit ("\x7b bad")))
        (lit ("GCP_SERVICE_ACCOUNT_KEY"))).error.map CredError.type
        = some ErrType.invalid_json :=
  ⟨by decide,
   (braceValue_never_base64 (lit ("\x7b bad")) (lit ("GCP_SERVICE_ACCOUNT_KEY"))
     (by decide)).1,
   by decide,
   (braceValue_never_base64 (lit ("\x7b bad")) (lit ("GCP_SERVICE_ACCOUNT_KEY"))
     (by decide)).2 (by decide)⟩

/-- C4 counterexample: with a blob variable set to `"not json at all"`, the
failure kind is `invalid_base64`, not `invalid_json` as the claim states,
and no remediation line mentions corruption during copy/paste.  (The
whitespace-stripped value actually passes the restricted-alphabet check;
the decode is skipped because the value is short, not because of its
spaces.) -/
theorem notJsonAtAll_counterexample :
    (resolveGCPCredentials
        [(lit ("GCP_SERVICE_ACCOUNT_KEY"), lit ("not json at all"))]).error.map CredError.type
        ≠ some ErrType.invalid_json
    ∧ (resolveGCPCredentials
        [(lit ("GCP_SERVICE_ACCOUNT_KEY"), lit ("not json at all"))]).error.map
          (fun e => e.troubleshooting.any fun t => containsSub t (lit ("corrupted")))
        = some false := by
  exact ⟨by decide, by decide⟩

/-- C4 (amended): with a blob variable set to `"not json at all"`, the
resolver fails with kind `invalid_base64` (the invalid-encoding kind); the
whitespace-stripped value passes the restricted-alphabet check but scores
0.3 (not above the 0.3 gate) because it is shorter than 100 characters, so
base64 decoding is skipped; the remediation mentions ensuring there are no
extra spaces rather than copy/paste corruption. -/
theorem notJsonAtAll_invalid_base64 :
    (resolveGCPCredentials
        [(lit ("GCP_SERVICE_ACCOUNT_KEY"), lit ("not json at all"))]).success = false
    ∧ (resolveGCPCredentials
        [(lit ("GCP_SERVICE_ACCOUNT_KEY"), lit ("not json at all"))]).error.map CredError.type
        = some ErrType.invalid_base64
    ∧ detectBase64Likelihood (lit ("not json at all")) = mkRat 3 10
    ∧ (resolveGCPCredentials
        [(lit ("GCP_SERVICE_ACCOUNT_KEY"), lit ("not json at all"))]).error.map
          (fun e => e.troubleshooting.any fun t =>
            containsSub t (lit ("no extra spaces, line breaks")))
        = some true := by
  exact ⟨by decide, by decide, by decide, by decide⟩

/-- C6 counterexample: an object whose `type` is `service_account` and
whose other four mandatory keys (`project_id`, `private_key_id`,
`private_key`, `client_email`) are bound to the empty string passes
structural validation — the validator checks key presence only (after the
`type` discriminator), so an empty-string value such as the empty
`private_key` is not rejected. -/
theorem emptyFields_pass_validation :
    (validateServiceAccountStructure
        (Json.obj [(lit ("type"), Json.str (lit ("service_account"))),
          (lit ("project_id"), Json.str []),
          (lit ("private_key_id"), Json.str []),
          (lit ("private_key"), Json.str []),
          (lit ("client_email"), Json.str [])])
        (lit ("SRC"))).success = true
    ∧ jsGet
        (Json.obj [(lit ("type"), Json.str (lit ("service_account"))),
          (lit ("project_id"), Json.str []),
          (lit ("private_key_id"), Json.str []),
          (lit ("private_key"), Json.str []),
          (lit ("client_email"), Json.str [])])
        (lit ("private_key")) = some (Json.str []) := by
  exact ⟨by decide, by rfl⟩

/-- Structural validation succeeds exactly when the value is a truthy
object whose `type` is `service_account` and all five mandatory keys are
present (a key-presence check only). -/
theorem validateStructure_success_iff (C : Json) (s : Str) :
    (validateServiceAccountStructure C s).success = true
      ↔ (jsTruthy C = true ∧ typeofObject C = true ∧ isServiceAccountType C = true
         ∧ ∀ f ∈ requiredFields, hasField C f = true) := by
  simp only [validateServiceAccountStructure]
  split_ifs with h1 h2 h3
  · constructor
    · intro hf; exact hf.elim
    · intro hr
      rw [hr.2.2.1] at h2
      exact Bool.noConfusion h2
  · constructor
    · intro hf; exact hf.elim
    · intro hr
      exact h3 (List.filter_eq_nil_iff.mpr (fun f hf => by simp [hr.2.2.2 f hf]))
  · constructor
    · intro _
      refine ⟨h1.1, h1.2, by simpa using h2, ?_⟩
      intro f hf2
      have hnil := not_ne_iff.mp h3
      have hx := List.filter_eq_nil_iff.mp hnil f hf2
      simpa using hx
    · intro _; rfl
  · constructor
    · intro hf; exact hf.elim
    · intro hr; exact absurd ⟨hr.1, hr.2.1⟩ h1

/-- C6 (amended): structural validation succeeds exactly when the value is
a truthy JavaScript object whose `type` property is the string
`service_account` and in which all five mandatory keys are present — key
presence only; the values, including empty strings, are not inspected. -/
theorem validation_presence_only (C : Json) (s : Str) :
    (validateServiceAccountStructure C s).success = true
      ↔ (jsTruthy C = true ∧ typeofObject C = true ∧ isServiceAccountType C = true
         ∧ ∀ f ∈ requiredFields, hasField C f = true) :=
  validateStructure_success_iff C s

/-- Helper: when a primary blob variable is set, the resolver's failure is
the specific parse or validation failure, never of kind `missing`. -/
theorem primary_blob_not_missing (env : Env) (name value : Str)
    (h1 : getFirstSetEnvWithName env SERVICE_ACCOUNT_JSON_ENV_NAMES = some (name, value)) :
    ∀ e, (resolveGCPCredentials env).error = some e → e.type ≠ ErrType.missing := by
  intro e he
  obtain ⟨hveq, hvne⟩ := getFirstSetEnvWithName_some h1
  have ht : ¬trimStr value = [] := fun hx => hvne (hveq.trans hx)
  rcases hc : (parseServiceAccountValue (some value) name).credentials with _ | creds
  · simp only [resolveGCPCredentials, h1, hc] at he
    exact parseServiceAccountValue_not_missing value name ht e he
  · simp only [resolveGCPCredentials, h1, hc] at he
    by_cases hcond : (parseServiceAccountValue (some value) name).success = true
        ∧ jsTruthy creds = true
    · rw [if_pos hcond] at he
      rcases validateServiceAccountStructure_inv creds
          ((parseServiceAccountValue (some value) name).source.getD []) with h | h
      · rw [h.2.2] at he
        exact absurd he (by simp)
      · obtain ⟨e2, he1, _, hne⟩ := h.2
        rw [he1] at he
        injection he with hee
        rw [hee] at hne
        exact hne
    · rw [if_neg hcond] at he
      exact parseServiceAccountValue_not_missing value name ht e he

/-- Helper: if `resolveFromParts` fails with kind `missing`, then the
component assembler produced nothing and the result is exactly the generic
`noCredentialsResult`. -/
theorem resolveFromParts_missing (env : Env) (e : CredError)
    (he : (resolveFromParts env).error = some e) (hm : e.type = ErrType.missing) :
    buildCredentialsFromEnvironmentParts env = none
      ∧ resolveFromParts env = noCredentialsResult := by
  rcases hb : buildCredentialsFromEnvironmentParts env with _ | creds
  · exact ⟨rfl, by simp only [resolveFromParts, hb]⟩
  · exfalso
    simp only [resolveFromParts, hb] at he
    rcases validateServiceAccountStructure_inv creds
        (lit ("credential parts (GCP_CLIENT_EMAIL + GCP_PRIVATE_KEY)")) with h | h
    · rw [h.2.2] at he
      exact absurd he (by simp)
    · obtain ⟨e2, he1, _, hne⟩ := h.2
      rw [he1] at he
      injection he with hee
      rw [hee] at hne
      exact hne hm

/-- C2 counterexample: `GOOGLE_APPLICATION_CREDENTIALS` is configured with
the malformed value `%%%` (its parse fails), yet the resolver returns the
generic failure of kind `missing`, not the specific parse failure — the
`GOOGLE_APPLICATION_CREDENTIALS` branch silently falls through on
failure. -/
theorem gacMalformed_yields_missing :
    (getFirstSetEnvWithName
        [(lit ("GOOGLE_APPLICATION_CREDENTIALS"), lit ("%%%"))]
        [lit ("GOOGLE_APPLICATION_CREDENTIALS")]).isSome = true
    ∧ (parseServiceAccountValue (some (lit ("%%%")))
        (lit ("GOOGLE_APPLICATION_CREDENTIALS"))).success = false
    ∧ ((resolveGCPCredentials
        [(lit ("GOOGLE_APPLICATION_CREDENTIALS"), lit ("%%%"))]).error.map
          CredError.type) = some ErrType.missing := by
  exact ⟨by decide, by decide, by decide⟩

/-- C2 (amended): a failure of kind `missing` implies no primary blob
variable was set and the component assembler produced nothing, and the
result is exactly the generic `noCredentialsResult`; when a primary blob
variable is set the failure is always the specific one; and when no blob
variable, no `GOOGLE_APPLICATION_CREDENTIALS` and no component pair is
set, the resolver returns exactly the generic `missing` result. (A
configured-but-malformed `GOOGLE_APPLICATION_CREDENTIALS` may still end
in `missing`.) -/
theorem missing_characterization (env : Env) :
    (∀ name value,
      getFirstSetEnvWithName env SERVICE_ACCOUNT_JSON_ENV_NAMES = some (name, value) →
      ∀ e, (resolveGCPCredentials env).error = some e → e.type ≠ ErrType.missing)
    ∧ (∀ e, (resolveGCPCredentials env).error = some e → e.type = ErrType.missing →
        getFirstSetEnvWithName env SERVICE_ACCOUNT_JSON_ENV_NAMES = none
        ∧ buildCredentialsFromEnvironmentParts env = none
        ∧ resolveGCPCredentials env = noCredentialsResult)
    ∧ (getFirstSetEnvWithName env SERVICE_ACCOUNT_JSON_ENV_NAMES = none →
        getFirstSetEnvWithName env [lit ("GOOGLE_APPLICATION_CREDENTIALS")] = none →
        buildCredentialsFromEnvironmentParts env = none →
        resolveGCPCredentials env = noCredentialsResult) := by
  refine ⟨fun name value h1 => primary_blob_not_missing env name value h1, ?_, ?_⟩
  · intro e he hm
    rcases h1 : getFirstSetEnvWithName env SERVICE_ACCOUNT_JSON_ENV_NAMES with _ | ⟨n, v⟩
    · rcases h2 : getFirstSetEnvWithName env [lit ("GOOGLE_APPLICATION_CREDENTIALS")]
        with _ | ⟨n2, v2⟩
      · have heq : resolveGCPCredentials env = resolveFromParts env := by
          simp only [resolveGCPCredentials, h1, h2]
        rw [heq] at he
        obtain ⟨hb, hres⟩ := resolveFromParts_missing env e he hm
        exact ⟨rfl, hb, heq.trans hres⟩
      · rcases hc : (parseServiceAccountValue (some v2) n2).credentials with _ | creds
        · have heq : resolveGCPCredentials env = resolveFromParts env := by
            simp only [resolveGCPCredentials, h1, h2, hc]
          rw [heq] at he
          obtain ⟨hb, hres⟩ := resolveFromParts_missing env e he hm
          exact ⟨rfl, hb, heq.trans hres⟩
        · by_cases hcond : (parseServiceAccountValue (some v2) n2).success = true
              ∧ jsTruthy creds = true
          · exfalso
            have heq : resolveGCPCredentials env
                = validateServiceAccountStructure creds
                    ((parseServiceAccountValue (some v2) n2).source.getD []) := by
              simp only [resolveGCPCredentials, h1, h2, hc, if_pos hcond]
            rw [heq] at he
            rcases validateServiceAccountStructure_inv creds
                ((parseServiceAccountValue (some v2) n2).source.getD []) with h | h
            · rw [h.2.2] at he
              exact absurd he (by simp)
            · obtain ⟨e2, he1, _, hne⟩ := h.2
              rw [he1] at he
              injection he with hee
              rw [hee] at hne
              exact hne hm
          · have heq : resolveGCPCredentials env = resolveFromParts env := by
              simp only [resolveGCPCredentials, h1, h2, hc, if_neg hcond]
            rw [heq] at he
            obtain ⟨hb, hres⟩ := resolveFromParts_missing env e he hm
            exact ⟨rfl, hb, heq.trans hres⟩
    · exact absurd hm (primary_blob_not_missing env n v h1 e he)
  · intro h1 h2 hb
    simp only [resolveGCPCredentials, h1, h2, resolveFromParts, hb]

/-- Witness for the C2 amended theorem at the empty environment. -/
theorem missing_characterization_witness :
    resolveGCPCredentials [] = noCredentialsResult :=
  (missing_characterization []).2.2 rfl rfl rfl

/-! ## Private-key newline normalisation (C7) -/

theorem replaceEsc_cons_ne (c : Char) (rest : Str)
    (h : ∀ r, c = '\\' → rest = 'n' :: r → False) :
    replaceEscapedNewlines (c :: rest) = c :: replaceEscapedNewlines rest := by
  rw [replaceEscapedNewlines]
  exact h

theorem countEsc_cons_ne (c : Char) (rest : Str)
    (h : ∀ r, c = '\\' → rest = 'n' :: r → False) :
    countEscNewlines (c :: rest) = countEscNewlines rest := by
  rw [countEscNewlines]
  exact h

theorem esc_prefix_false (x : Char) (X : Str) (h : x ≠ '\\') :
    (['\\', 'n'] : Str).isPrefixOf (x :: X) = false := by
  have hb : (('\\' : Char) == x) = false := beq_eq_false_iff_ne.mpr (Ne.symm h)
  cases X <;> simp [List.isPrefixOf, hb]

theorem esc_prefix_head (X : Str) (h : X.head? ≠ some 'n') :
    (['\\', 'n'] : Str).isPrefixOf ('\\' :: X) = false := by
  cases X with
  | nil => simp [List.isPrefixOf]
  | cons y Y =>
    have hy : y ≠ 'n' := by
      intro hh
      subst hh
      exact h rfl
    have hb : (('n' : Char) == y) = false := beq_eq_false_iff_ne.mpr (Ne.symm hy)
    simp [List.isPrefixOf, hb]

theorem replaceEsc_head (l : Str) :
    (replaceEscapedNewlines l).head? = l.head?
      ∨ (replaceEscapedNewlines l).head? = some '\n' := by
  induction l using replaceEscapedNewlines.induct with
  | case1 rest ih => right; rfl
  | case2 c rest h ih =>
    left
    rw [replaceEsc_cons_ne c rest h]
    rfl
  | case3 => left; rfl

theorem replaceEsc_no_esc (l : Str) :
    containsSub (replaceEscapedNewlines l) (['\\', 'n']) = false := by
  induction l using replaceEscapedNewlines.induct with
  | case1 rest ih =>
    have h1 := esc_prefix_false '\n' (replaceEscapedNewlines rest) (by decide)
    have he : replaceEscapedNewlines ('\\' :: 'n' :: rest)
        = '\n' :: replaceEscapedNewlines rest := rfl
    rw [he]
    simp [containsSub, h1, ih]
  | case2 c rest h ih =>
    rw [replaceEsc_cons_ne c rest h]
    by_cases hc : c = '\\'
    · subst hc
      have hrest : rest.head? ≠ some 'n' := by
        cases rest with
        | nil => simp
        | cons y Y =>
          intro hy
          simp at hy
          exact h Y rfl (by rw [hy])
      have hhd : (replaceEscapedNewlines rest).head? ≠ some 'n' := by
        rcases replaceEsc_head rest with h2 | h2
        · rw [h2]; exact hrest
        · rw [h2]; decide
      have h1 := esc_prefix_head (replaceEscapedNewlines rest) hhd
      simp [containsSub, h1, ih]
    · have h1 := esc_prefix_false c (replaceEscapedNewlines rest) hc
      simp [containsSub, h1, ih]
  | case3 => decide

theorem replaceEsc_count (l : Str) :
    (replaceEscapedNewlines l).count '\n' = l.count '\n' + countEscNewlines l := by
  induction l using replaceEscapedNewlines.induct with
  | case1 rest ih =>
    have he : replaceEscapedNewlines ('\\' :: 'n' :: rest)
        = '\n' :: replaceEscapedNewlines rest := rfl
    rw [he]
    simp [List.count_cons, countEscNewlines, ih]
    omega
  | case2 c rest h ih =>
    rw [replaceEsc_cons_ne c rest h, countEsc_cons_ne c rest h]
    simp [List.count_cons, ih]
    omega
  | case3 => rfl

/-- C7: when the retrieved private-key component contains the two-character
`\n` escape, the assembled credential's `private_key` is the trimmed value
with every escape replaced by an actual newline: the result contains zero
occurrences of the escape, and its newline count is the original newline
count plus the number of escape occurrences. -/
theorem privateKey_newlines_normalised (env : Env) (ce k : Str)
    (hce : getFirstSetEnv env SERVICE_ACCOUNT_EMAIL_ENV_NAMES = some ce)
    (hk : getFirstSetEnv env SERVICE_ACCOUNT_KEY_ENV_NAMES = some k)
    (hesc : containsSub (trimStr k) (['\\', 'n']) = true) :
    ∃ fs, buildCredentialsFromEnvironmentParts env = some (Json.obj fs)
      ∧ lookupField fs (lit ("private_key"))
          = some (Json.str (replaceEscapedNewlines (trimStr k)))
      ∧ containsSub (replaceEscapedNewlines (trimStr k)) (['\\', 'n']) = false
      ∧ (replaceEscapedNewlines (trimStr k)).count '\n'
          = (trimStr k).count '\n' + countEscNewlines (trimStr k) := by
  have hne : ¬(trimStr k = []) := by
    intro h0
    rw [h0] at hesc
    exact absurd hesc (by decide)
  have hnorm : normalisePrivateKey (some k)
      = some (replaceEscapedNewlines (trimStr k)) := by
    simp only [normalisePrivateKey]
    rw [if_neg hne, if_pos hesc]
  rcases hp : getFirstSetEnv env PROJECT_ID_ENV_NAMES with _ | pid
  · refine ⟨[(lit ("client_email"), Json.str ce),
        (lit ("private_key"), Json.str (replaceEscapedNewlines (trimStr k))),
        (lit ("type"), Json.str (lit ("service_account")))],
      ?_, ?_, replaceEsc_no_esc _, replaceEsc_count _⟩
    · simp only [buildCredentialsFromEnvironmentParts, hce, hk, hnorm, hp]
    · simp only [lookupField]
      rw [if_neg (by decide : ¬(lit ("type") = lit ("private_key")))]
      simp
  · refine ⟨[(lit ("client_email"), Json.str ce),
        (lit ("private_key"), Json.str (replaceEscapedNewlines (trimStr k))),
        (lit ("type"), Json.str (lit ("service_account"))),
        (lit ("project_id"), Json.str pid)],
      ?_, ?_, replaceEsc_no_esc _, replaceEsc_count _⟩
    · simp only [buildCredentialsFromEnvironmentParts, hce, hk, hnorm, hp]
    · simp only [lookupField]
      rw [if_neg (by decide : ¬(lit ("project_id") = lit ("private_key")))]
      rw [if_neg (by decide : ¬(lit ("type") = lit ("private_key")))]
      simp

/-- Witness for C7 with `GCP_CLIENT_EMAIL=e@x` and `GCP_PRIVATE_KEY=a\nb`
(four characters, with a literal backslash-n). -/
theorem privateKey_newlines_normalised_witness :
    ∃ fs, buildCredentialsFromEnvironmentParts
        [(lit ("GCP_CLIENT_EMAIL"), lit ("e@x")),
         (lit ("GCP_PRIVATE_KEY"), lit ("a\\nb"))] = some (Json.obj fs)
      ∧ lookupField fs (lit ("private_key"))
          = some (Json.str (replaceEscapedNewlines (trimStr (lit ("a\\nb")))))
      ∧ containsSub (replaceEscapedNewlines (trimStr (lit ("a\\nb")))) (['\\', 'n'])
          = false
      ∧ (replaceEscapedNewlines (trimStr (lit ("a\\nb")))).count '\n'
          = (trimStr (lit ("a\\nb"))).count '\n'
            + countEscNewlines (trimStr (lit ("a\\nb"))) :=
  privateKey_newlines_normalised
    [(lit ("GCP_CLIENT_EMAIL"), lit ("e@x")), (lit ("GCP_PRIVATE_KEY"), lit ("a\\nb"))]
    (lit ("e@x")) (lit ("a\\nb")) (by decide) (by decide) (by decide)

/-! ## Ordered environment lookup and split-part reconstruction (C8) -/

theorem findDirect_first (env : Env) (pre : List Str) (n : Str) (post : List Str)
    (v : Str)
    (hpre : ∀ m ∈ pre, ∀ w, envGet env m = some w → trimStr w = [])
    (hn : envGet env n = some v) (hv : trimStr v ≠ []) :
    findDirect env (pre ++ n :: post) = some (n, trimStr v) := by
  induction pre with
  | nil =>
    simp only [List.nil_append, findDirect]
    rw [hn]
    exact if_pos hv
  | cons m pre ih =>
    simp only [List.cons_append, findDirect]
    rcases hw : envGet env m with _ | w
    · exact ih fun m2 h2 => hpre m2 (List.mem_cons_of_mem m h2)
    · have hww : trimStr w = [] := hpre m (List.mem_cons_self m pre) w hw
      dsimp only
      rw [if_neg (by simp [hww])]
      exact ih fun m2 h2 => hpre m2 (List.mem_cons_of_mem m h2)

theorem findDirect_none (env : Env) (names : List Str)
    (h : ∀ m ∈ names, ∀ w, envGet env m = some w → trimStr w = []) :
    findDirect env names = none := by
  induction names with
  | nil => rfl
  | cons m ns ih =>
    simp only [findDirect]
    rcases hw : envGet env m with _ | w
    · exact ih fun m2 h2 => h m2 (List.mem_cons_of_mem m h2)
    · have hww : trimStr w = [] := h m (List.mem_cons_self m ns) w hw
      dsimp only
      rw [if_neg (by simp [hww])]
      exact ih fun m2 h2 => h m2 (List.mem_cons_of_mem m h2)

theorem findSplit_shape (env : Env) (names : List Str) (nm val : Str)
    (h : findSplit env names = some (nm, val)) :
    ∃ n ∈ names, ∃ c, combineSplitEnv env n = some c
      ∧ nm = n ++ lit (" (split parts)") ∧ val = trimStr c := by
  induction names with
  | nil => exact absurd h (by simp [findSplit])
  | cons m ns ih =>
    rw [findSplit] at h
    rcases hc : combineSplitEnv env m with _ | c
    · rw [hc] at h
      obtain ⟨n, hn, rest⟩ := ih h
      exact ⟨n, List.mem_cons_of_mem m hn, rest⟩
    · rw [hc] at h
      dsimp only at h
      by_cases ht : trimStr c ≠ []
      · rw [if_pos ht] at h
        injection h with h1
        injection h1 with h2 h3
        exact ⟨m, List.mem_cons_self m ns, c, hc, h2.symm, h3.symm⟩
      · rw [if_neg ht] at h
        obtain ⟨n, hn, rest⟩ := ih h
        exact ⟨n, List.mem_cons_of_mem m hn, rest⟩

/-- C8: the lookup returns the first directly-set non-blank candidate; only
when every direct check over the whole list fails does it fall back to the
split pass, whose hits come from `combineSplitEnv`; a reconstructed value
is the separator-free concatenation of the collected parts in ascending
index order (a stable sort of the collected `(index, value)` pairs); and
the collected pairs are exactly the non-empty environment entries whose
key is the base name suffixed by `PART` plus digits or by bare digits. -/
theorem env_lookup_priority (env : Env) (names : List Str) :
    (∀ pre n post v, names = pre ++ n :: post →
        (∀ m ∈ pre, ∀ w, envGet env m = some w → trimStr w = []) →
        envGet env n = some v → trimStr v ≠ [] →
        getFirstSetEnvWithName env names = some (n, trimStr v))
    ∧ ((∀ m ∈ names, ∀ w, envGet env m = some w → trimStr w = []) →
        getFirstSetEnvWithName env names = findSplit env names)
    ∧ (∀ nm val, findSplit env names = some (nm, val) →
        ∃ n ∈ names, ∃ c, combineSplitEnv env n = some c
          ∧ nm = n ++ lit (" (split parts)") ∧ val = trimStr c)
    ∧ (∀ base c, combineSplitEnv env base = some c →
        ∃ l : List (Nat × Str), l.Perm (splitParts env base)
          ∧ l.Sorted (fun a b => a.1 ≤ b.1)
          ∧ c = (l.map Prod.snd).flatten)
    ∧ (∀ base i v, (i, v) ∈ splitParts env base
        ↔ ∃ k, (k, v) ∈ env ∧ v ≠ [] ∧ splitIndex? base k = some i) := by
  refine ⟨?_, ?_, fun nm val h => findSplit_shape env names nm val h, ?_, ?_⟩
  · intro pre n post v hsplit hpre hn hv
    rw [hsplit]
    unfold getFirstSetEnvWithName
    rw [findDirect_first env pre n post v hpre hn hv]
  · intro hall
    unfold getFirstSetEnvWithName
    rw [findDirect_none env names hall]
  · intro base c hc
    haveI : IsTotal (Nat × Str) (fun a b => a.1 ≤ b.1) :=
      ⟨fun a b => Nat.le_total a.1 b.1⟩
    haveI : IsTrans (Nat × Str) (fun a b => a.1 ≤ b.1) :=
      ⟨fun a b d h1 h2 => le_trans h1 h2⟩
    refine ⟨(splitParts env base).insertionSort (fun a b => a.1 ≤ b.1),
      List.perm_insertionSort _ _, List.sorted_insertionSort _ _, ?_⟩
    unfold combineSplitEnv at hc
    by_cases hp : (splitParts env base).isEmpty
    · rw [if_pos hp] at hc
      exact absurd hc (by simp)
    · rw [if_neg hp] at hc
      injection hc with h1
      exact h1.symm
  · intro base i v
    simp only [splitParts, List.mem_filterMap]
    constructor
    · rintro ⟨⟨k, w⟩, hmem, hf⟩
      by_cases hw : w ≠ []
      · rw [if_pos hw] at hf
        rcases Option.map_eq_some'.mp hf with ⟨j, hj, hji⟩
        injection hji with h1 h2
        subst h1
        subst h2
        exact ⟨k, hmem, hw, hj⟩
      · rw [if_neg hw] at hf
        exact absurd hf (by simp)
    · rintro ⟨k, hmem, hv, hsi⟩
      exact ⟨(k, v), hmem, by rw [if_pos hv]; simp [hsi]⟩

/-! ## The base64 round trip through the resolver (C5) -/

theorem validate_success_facts (C : Json) (s : Str)
    (h : (validateServiceAccountStructure C s).success = true) :
    jsTruthy C = true ∧ typeofObject C = true ∧ isServiceAccountType C = true
      ∧ ∀ f ∈ requiredFields, hasField C f = true :=
  (validateStructure_success_iff C s).mp h

theorem validate_success_obj (C : Json) (s : Str)
    (h : (validateServiceAccountStructure C s).success = true) :
    ∃ fs, C = Json.obj fs := by
  obtain ⟨h1, h2, h3, _⟩ := validate_success_facts C s h
  cases C with
  | obj fs => exact ⟨fs, rfl⟩
  | null => simp [jsTruthy] at h1
  | arr xs =>
    rw [isServiceAccountType_iff] at h3
    simp [jsGet] at h3
  | bool b => simp [typeofObject] at h2
  | num n => simp [typeofObject] at h2
  | str s2 => simp [typeofObject] at h2

theorem validate_success_any_source (C : Json) (s s2 : Str)
    (h : (validateServiceAccountStructure C s).success = true) :
    validateServiceAccountStructure C s2
      = ⟨true, some C, jsGet C (lit ("project_id")), none, some s2⟩ := by
  obtain ⟨h1, h2, h3, h4⟩ := validate_success_facts C s h
  simp only [validateServiceAccountStructure]
  rw [if_neg (not_not_intro ⟨h1, h2⟩)]
  rw [if_neg (by simp [h3])]
  rw [if_neg (not_not_intro
    (List.filter_eq_nil_iff.mpr (fun f hf => by simp [h4 f hf])))]

theorem containsSub_false_of_head_notin (pat : Str) (p : Char)
    (hp : pat.head? = some p) :
    ∀ s : Str, p ∉ s → containsSub s pat = false := by
  intro s
  induction s with
  | nil =>
    intro h
    rcases pat with _ | ⟨q, qs⟩
    · exact absurd hp (by simp)
    · rfl
  | cons x xs ih =>
    intro h
    have h1 : pat.isPrefixOf (x :: xs) = false := by
      rcases pat with _ | ⟨q, qs⟩
      · exact absurd hp (by simp)
      · have hq : q = p := by simpa using hp
        subst hq
        have hqx : (q == x) = false :=
          beq_eq_false_iff_ne.mpr (fun he => h (he ▸ List.mem_cons_self x xs))
        simp [List.isPrefixOf, hqx]
    show (pat.isPrefixOf (x :: xs) || containsSub xs pat) = false
    rw [h1, ih (fun he => h (List.mem_cons_of_mem x he))]
    rfl

theorem base64Encode_chars (l : List Nat) (hl : ∀ b ∈ l, b < 256) :
    ∀ c ∈ base64Encode l, isBase64Char c = true ∨ c = '=' := by
  obtain ⟨body, pad, hsplit, hbody, hpad, _⟩ := base64Encode_structure l hl
  intro c hc
  rw [hsplit] at hc
  rcases List.mem_append.mp hc with h | h
  · exact Or.inl (hbody c h)
  · right
    rcases hpad with rfl | rfl | rfl
    · simp at h
    · simpa using h
    · rcases (by simpa using h : c = '=' ∨ c = '=') with rfl | rfl <;> rfl

theorem base64Encode_not_ws (l : List Nat) (hl : ∀ b ∈ l, b < 256) :
    ∀ c ∈ base64Encode l, isJsWs c = false := by
  intro c hc
  rcases base64Encode_chars l hl c hc with h | rfl
  · exact isBase64Char_not_ws h
  · decide

theorem notin_base64Encode (l : List Nat) (hl : ∀ b ∈ l, b < 256) (c : Char)
    (hc1 : isBase64Char c = false) (hc2 : c ≠ '=') : c ∉ base64Encode l := by
  intro hmem
  rcases base64Encode_chars l hl c hmem with h | rfl
  · rw [h] at hc1
    exact Bool.noConfusion hc1
  · exact hc2 rfl

theorem serializeField_length (k : Str) (v : Json) :
    k.length + 4 ≤ (serializeField (k, v)).length := by
  have h1 := length_le_flatMap_escape k
  have h2 := jsize_pos v
  have h3 := jsize_le_stringify v
  simp only [serializeField, serializeStr, List.length_cons, List.length_append]
  omega

theorem fieldsRest_length (fs : List (Str × Json)) :
    ((fs.map fun f => f.1.length + 4).sum) ≤ (serializeFieldsRest fs).length := by
  induction fs with
  | nil => simp [serializeFieldsRest]
  | cons f fs ih =>
    rcases f with ⟨k, v⟩
    have h1 := serializeField_length k v
    simp only [serializeFieldsRest, List.map_cons, List.sum_cons, List.length_cons,
      List.length_append]
    omega

theorem stringify_obj_length (fs : List (Str × Json)) :
    2 + ((fs.map fun f => f.1.length + 4).sum) ≤ (stringify (Json.obj fs)).length := by
  cases fs with
  | nil => simp [stringify]
  | cons f fs =>
    rcases f with ⟨k, v⟩
    have h1 := serializeField_length k v
    have h2 := fieldsRest_length fs
    simp only [stringify, List.map_cons, List.sum_cons, List.length_cons,
      List.length_append, List.length_singleton]
    omega

theorem required_sub_sum (fs : List (Str × Json))
    (h : ∀ f ∈ requiredFields, hasField (Json.obj fs) f = true) :
    71 ≤ ((fs.map fun f => f.1.length + 4).sum) := by
  have hsub : requiredFields ⊆ fs.map Prod.fst := by
    intro k hk
    have hk2 := h k hk
    simp only [hasField, List.any_eq_true] at hk2
    obtain ⟨f, hf, he⟩ := hk2
    exact List.mem_map.mpr ⟨f, hf, by simpa using he⟩
  have hnd : requiredFields.Nodup := by decide
  obtain ⟨l, hperm, hsubl⟩ := List.Nodup.subperm hnd hsub
  have hsum1 : ((l.map fun k => k.length + 4).sum)
      = ((requiredFields.map fun k => k.length + 4).sum) :=
    (hperm.map fun k => k.length + 4).sum_eq
  have hsum2 : ((l.map fun k => k.length + 4).sum)
      ≤ (((fs.map Prod.fst).map fun k => k.length + 4).sum) :=
    (hsubl.map fun k => k.length + 4).sum_le_sum (fun _ _ => Nat.zero_le _)
  have hreq : ((requiredFields.map fun k => k.length + 4).sum) = 71 := by decide
  have heq : (((fs.map Prod.fst).map fun k => k.length + 4).sum)
      = ((fs.map fun f => f.1.length + 4).sum) := by
    rw [List.map_map]
    rfl
  omega

theorem stringify_valid_length (C : Json) (s : Str)
    (h : (validateServiceAccountStructure C s).success = true) :
    73 ≤ (stringify C).length := by
  obtain ⟨fs, rfl⟩ := validate_success_obj C s h
  obtain ⟨_, _, _, h4⟩ := validate_success_facts _ s h
  have h1 := required_sub_sum fs h4
  have h2 := stringify_obj_length fs
  omega

theorem jsonParse_e (r : Str) : jsonParse ('e' :: r) = none := by
  have hskip : skipWs ('e' :: r) = 'e' :: r := by
    simp [skipWs, List.dropWhile_cons, isJsonWs]
  have hnat : ('e' :: r).takeWhile Char.isDigit = [] := by
    simp [List.takeWhile_cons, (by decide : ('e').isDigit = false)]
  have hpn : parseNumber ('e' :: r) = none := by
    rw [parseNumber]
    rw [if_neg (by simp : ¬(('e' :: r).head? = some '-'))]
    rw [parseNatNum, hnat]
    simp
  have hpv : parseValue (('e' :: r).length + 1) ('e' :: r) = none := by
    rw [parseValue, hskip]
    dsimp only
    rw [if_neg (by decide : ¬('e' = '\x7b')), if_neg (by decide : ¬('e' = '[')),
      if_neg (by decide : ¬('e' = '"')), if_neg (by decide : ¬('e' = 't')),
      if_neg (by decide : ¬('e' = 'f')), if_neg (by decide : ¬('e' = 'n'))]
    exact hpn
  rw [jsonParse, hpv]

theorem stringify_obj_head (fs : List (Str × Json)) :
    ∃ t, stringify (Json.obj fs) = '\x7b' :: t := by
  cases fs with
  | nil => exact ⟨['\x7d'], rfl⟩
  | cons f fs => exact ⟨(serializeField f ++ serializeFieldsRest fs) ++ ['\x7d'], rfl⟩

theorem utf8Encode_brace_cons (t : Str) :
    utf8Encode ('\x7b' :: t) = 123 :: utf8Encode t := by
  have h : utf8EncodeChar '\x7b' = [123] := by decide
  simp [utf8Encode, List.flatMap_cons, h]

theorem base64Encode_brace_head (t : List Nat) :
    ∃ u, base64Encode (123 :: t) = 'e' :: u := by
  obtain ⟨u, hu⟩ := base64Encode_head 123 t
  exact ⟨u, by rw [hu]; rfl⟩

theorem detectBase64_encode (l : List Nat) (hl : ∀ b ∈ l, b < 256)
    (hlen : 73 ≤ l.length) :
    detectBase64Likelihood (base64Encode l) = mkRat 9 10 := by
  obtain ⟨body, pad, hsplit, hbody, hpad, hbody_ne⟩ := base64Encode_structure l hl
  have hnws := base64Encode_not_ws l hl
  have htrim : trimStr (base64Encode l) = base64Encode l := trimStr_eq_self _ hnws
  have hfil : (base64Encode l).filter (fun c => !isJsWs c) = base64Encode l :=
    List.filter_eq_self.mpr (fun c hc => by rw [hnws c hc]; rfl)
  have hlne : l ≠ [] := by
    intro h0
    rw [h0] at hlen
    simp at hlen
  have h4len : (base64Encode l).length = 4 * ((l.length + 2) / 3) := base64Encode_length l
  obtain ⟨b0, brest, rfl⟩ : ∃ b0 brest, body = b0 :: brest := by
    rcases body with _ | ⟨b0, br⟩
    · exact absurd rfl (hbody_ne hlne)
    · exact ⟨b0, br, rfl⟩
  have hb0 : isBase64Char b0 = true := hbody b0 (List.mem_cons_self _ _)
  have hhead : (base64Encode l).head? = some b0 := by rw [hsplit]; rfl
  have hcond1 : ¬((base64Encode l).head? = some '\x7b'
      ∨ (base64Encode l).head? = some '[') := by
    rw [hhead]
    rintro (h | h) <;> (injection h with h; subst h; exact absurd hb0 (by decide))
  have hpadhead : ∀ c, pad.head? = some c → isBase64Char c = false := by
    intro c hc
    rcases hpad with rfl | rfl | rfl
    · exact absurd hc (by simp)
    · have : c = '=' := by simpa using hc.symm
      subst this
      decide
    · have : c = '=' := by simpa using hc.symm
      subst this
      decide
  obtain ⟨htake, hdrop⟩ := takeWhile_append_all hbody hpadhead
  have hpall : pad.all (fun c => decide (c = '=')) = true := by
    rcases hpad with rfl | rfl | rfl <;> rfl
  have hrevpad : ∀ c ∈ pad.reverse, (fun c => decide (c = '=')) c = true := by
    intro c hc
    rcases hpad with rfl | rfl | rfl
    · simp at hc
    · simp at hc
      simp [hc]
    · simp at hc
      simp [hc]
  have hrevbody_head : ∀ c, ((b0 :: brest).reverse).head? = some c
      → (fun c => decide (c = '=')) c = false := by
    intro c hc
    have hcmem : c ∈ b0 :: brest := by
      have h0 := List.mem_of_mem_head? hc
      rw [List.mem_reverse] at h0
      exact h0
    have hcb := hbody c hcmem
    simp only [decide_eq_false_iff_not]
    rintro rfl
    exact absurd hcb (by decide)
  obtain ⟨htake2, _⟩ := takeWhile_append_all hrevpad hrevbody_head
  have hpadlen : pad.length ≤ 2 := by rcases hpad with rfl | rfl | rfl <;> simp
  rw [hsplit] at h4len
  simp only [detectBase64Likelihood]
  rw [htrim, hfil, if_neg hcond1, hsplit, htake, hdrop]
  rw [if_neg (by simp [hpall])]
  rw [if_neg (by omega)]
  rw [List.reverse_append, htake2]
  rw [if_neg (by simp [List.length_reverse]; omega)]
  rw [if_pos (by omega)]

theorem getFirstSet_singleton (name v : Str)
    (hname : name ∈ SERVICE_ACCOUNT_JSON_ENV_NAMES) (hv : trimStr v ≠ []) :
    getFirstSetEnvWithName [(name, v)] SERVICE_ACCOUNT_JSON_ENV_NAMES
      = some (name, trimStr v) := by
  obtain ⟨s, t, hst⟩ := List.append_of_mem hname
  have hnd : SERVICE_ACCOUNT_JSON_ENV_NAMES.Nodup := by decide
  have hns : name ∉ s := by
    rw [hst] at hnd
    intro hmem
    exact (List.nodup_append.mp hnd).2.2 hmem (List.mem_cons_self name t)
  rw [hst]
  unfold getFirstSetEnvWithName
  rw [findDirect_first [(name, v)] s name t v ?hpre ?hn hv]
  case hn => simp [envGet]
  case hpre =>
    intro m hm w hw
    have hmn : name ≠ m := fun he => hns (he ▸ hm)
    simp [envGet, hmn] at hw

/-- C5: for every credential object that passes structural validation,
setting any blob-style variable to the base64 encoding of its JSON
serialization makes the resolver succeed with exactly that object — the
serialize / base64-encode / resolve round trip is lossless. -/
theorem base64_roundtrip_success (C : Json) (src name : Str)
    (hval : (validateServiceAccountStructure C src).success = true)
    (hname : name ∈ SERVICE_ACCOUNT_JSON_ENV_NAMES) :
    (resolveGCPCredentials
        [(name, base64Encode (utf8Encode (stringify C)))]).success = true
    ∧ (resolveGCPCredentials
        [(name, base64Encode (utf8Encode (stringify C)))]).credentials = some C := by
  have hBlt := utf8Encode_lt_256 (stringify C)
  have hnws : ∀ c ∈ base64Encode (utf8Encode (stringify C)), isJsWs c = false :=
    base64Encode_not_ws _ hBlt
  have htrim : trimStr (base64Encode (utf8Encode (stringify C)))
      = base64Encode (utf8Encode (stringify C)) := trimStr_eq_self _ hnws
  have hElen : 73 ≤ (stringify C).length := stringify_valid_length C src hval
  have hBlen : 73 ≤ (utf8Encode (stringify C)).length :=
    le_trans hElen (length_le_utf8Encode _)
  have henclen : 100 ≤ (base64Encode (utf8Encode (stringify C))).length := by
    rw [base64Encode_length]
    omega
  have hencne : ¬trimStr (base64Encode (utf8Encode (stringify C))) = [] := by
    rw [htrim]
    intro h0
    rw [h0] at henclen
    simp at henclen
  have hlook := getFirstSet_singleton name (base64Encode (utf8Encode (stringify C)))
    hname hencne
  obtain ⟨fs, hCobj⟩ := validate_success_obj C src hval
  obtain ⟨t1, ht1⟩ := stringify_obj_head fs
  have hEhead : stringify C = '\x7b' :: t1 := by rw [hCobj]; exact ht1
  have hBhead : utf8Encode (stringify C) = 123 :: utf8Encode t1 := by
    rw [hEhead]
    exact utf8Encode_brace_cons t1
  obtain ⟨u, hu⟩ : ∃ u, base64Encode (utf8Encode (stringify C)) = 'e' :: u := by
    rw [hBhead]
    exact base64Encode_brace_head _
  have hnl : containsSub (base64Encode (utf8Encode (stringify C))) ['\n'] = false :=
    containsSub_false_of_head_notin ['\n'] '\n' rfl _
      (notin_base64Encode _ hBlt '\n' (by decide) (by decide))
  have hp22 : containsSub (base64Encode (utf8Encode (stringify C)))
      (lit ("%22")) = false :=
    containsSub_false_of_head_notin (lit ("%22")) '%' (by decide) _
      (notin_base64Encode _ hBlt '%' (by decide) (by decide))
  have hp7B : containsSub (base64Encode (utf8Encode (stringify C)))
      (lit ("%7B")) = false :=
    containsSub_false_of_head_notin (lit ("%7B")) '%' (by decide) _
      (notin_base64Encode _ hBlt '%' (by decide) (by decide))
  have hp7D : containsSub (base64Encode (utf8Encode (stringify C)))
      (lit ("%7D")) = false :=
    containsSub_false_of_head_notin (lit ("%7D")) '%' (by decide) _
      (notin_base64Encode _ hBlt '%' (by decide) (by decide))
  have hclean : cleanedValueOf (base64Encode (utf8Encode (stringify C)))
      = base64Encode (utf8Encode (stringify C)) := by
    have hcond1 : ¬(containsSub (base64Encode (utf8Encode (stringify C))) ['\n'] = true
        ∧ (base64Encode (utf8Encode (stringify C))).head? ≠ some '\x7b') := fun hcond => by
      rw [hnl] at hcond
      exact Bool.noConfusion hcond.1
    have hcond2 : ¬(containsSub (base64Encode (utf8Encode (stringify C)))
          (lit ("%22")) = true
        ∨ containsSub (base64Encode (utf8Encode (stringify C))) (lit ("%7B")) = true
        ∨ containsSub (base64Encode (utf8Encode (stringify C))) (lit ("%7D")) = true) := by
      push_neg
      exact ⟨by simp [hp22], by simp [hp7B], by simp [hp7D]⟩
    simp only [cleanedValueOf]
    rw [htrim]
    rw [if_neg hcond1]
    rw [if_neg hcond2]
  have hjp : jsonParse (base64Encode (utf8Encode (stringify C))) = none := by
    rw [hu]
    exact jsonParse_e u
  have hdet : detectBase64Likelihood (base64Encode (utf8Encode (stringify C)))
      = mkRat 9 10 := detectBase64_encode _ hBlt hBlen
  have hdec : utf8DecodeBytes (base64Decode (base64Encode (utf8Encode (stringify C))))
      = stringify C := by
    rw [base64Decode_encode _ hBlt, utf8DecodeBytes_encode]
  have hparse : parseServiceAccountValue
      (some (base64Encode (utf8Encode (stringify C)))) name
      = ⟨true, some C, jsGet C (lit ("project_id")), none,
          some (name ++ lit (" (base64-encoded JSON)"))⟩ := by
    rw [parseServiceAccountValue_eq _ name hencne]
    rw [hclean, hjp]
    rw [if_pos (by rw [hdet]; decide)]
    rw [hdec, jsonParse_stringify]
  obtain ⟨htruthy, _, _, _⟩ := validate_success_facts C src hval
  have hvalres := validate_success_any_source C src
    (name ++ lit (" (base64-encoded JSON)")) hval
  simp only [resolveGCPCredentials, hlook, htrim, hparse]
  rw [if_pos (by simp [htruthy])]
  simp only [Option.getD_some]
  rw [hvalres]
  exact ⟨rfl, rfl⟩

/-- A concrete valid credential object used to witness the C5 round trip. -/
def sampleCredential : Json :=
  Json.obj
    [(lit ("type"), Json.str (lit ("service_account"))),
     (lit ("project_id"), Json.str (lit ("p"))),
     (lit ("private_key_id"), Json.str (lit ("k"))),
     (lit ("private_key"), Json.str (lit ("K"))),
     (lit ("client_email"), Json.str (lit ("e")))]

/-- Witness for C5 at a concrete valid credential and the first blob
variable name. -/
theorem base64_roundtrip_success_witness :
    (resolveGCPCredentials [(lit ("GCP_SERVICE_ACCOUNT_KEY"),
        base64Encode (utf8Encode (stringify sampleCredential)))]).success = true
    ∧ (resolveGCPCredentials [(lit ("GCP_SERVICE_ACCOUNT_KEY"),
        base64Encode (utf8Encode (stringify sampleCredential)))]).credentials
      = some sampleCredential :=
  base64_roundtrip_success sampleCredential (lit ("SRC"))
    (lit ("GCP_SERVICE_ACCOUNT_KEY")) (by decide) (by decide)

end Creds
